import Mathlib

/-!
Verification of the ecsy 0.1.0 runtime core (src/unnamed/part_000).

The JavaScript source is shallowly embedded: component types are
represented by their registered constructor (identified by a `Nat` id,
with `compName` playing the role of `Component.name`), entities by their
position in an arena (`EMState.heap`), mirroring JS object identity, and
queries by their canonical key string, mirroring the one-object-per-key
memoization of `QueryManager.getQuery`.  JS arrays that are used with
`push`/`pop` at the tail are modelled as Lean lists used as stacks
(cons = push, head = pop); arrays that are indexed or iterated in order
are modelled front-to-back with `push` as append.  Each definition notes
the source lines it embeds.
-/

namespace Ecsy

/-! ## Generic list helpers: JS `splice(i, 1)` and insertion sort -/

/-- JS `array.splice(i, 1)` for a possibly negative index `i` (as produced by
`indexOf` misses): a negative index counts from the end, clamped at 0; an
index at or past the length deletes nothing. -/
def jsSplice1 (l : List α) (i : Int) : List α :=
  let j : Nat := if i < 0 then (l.length + i).toNat else i.toNat
  l.take j ++ l.drop (j + 1)

/-- Index of the first occurrence, if any. -/
def firstIdx [BEq α] (l : List α) (a : α) : Option Nat :=
  match l with
  | [] => none
  | x :: xs => if x == a then some 0 else (firstIdx xs a).map (· + 1)

/-- Index of the first occurrence, as JS `indexOf`: `-1` when absent. -/
def jsIndexOf [BEq α] (l : List α) (a : α) : Int :=
  match firstIdx l a with
  | some i => (i : Int)
  | none => -1

theorem firstIdx_eq_none_iff [BEq α] [LawfulBEq α] (l : List α) (a : α) :
    firstIdx l a = none ↔ a ∉ l := by
  induction l with
  | nil => simp [firstIdx]
  | cons x xs ih =>
    simp only [firstIdx, List.mem_cons]
    by_cases h : x == a
    · simp only [if_pos h]
      have : a = x := (eq_of_beq h).symm
      simp [this]
    · simp only [if_neg h, Option.map_eq_none']
      have hne : ¬ a = x := fun hc => h (beq_iff_eq.mpr hc.symm)
      simp [ih, hne]

theorem jsIndexOf_eq_neg_one_iff [BEq α] [LawfulBEq α] (l : List α) (a : α) :
    jsIndexOf l a = -1 ↔ a ∉ l := by
  unfold jsIndexOf
  cases h : firstIdx l a with
  | none => simp [(firstIdx_eq_none_iff l a).mp h]
  | some i =>
    constructor
    · intro hc
      have hc2 : (i : Int) = -1 := hc
      omega
    · intro hmem
      exact absurd ((firstIdx_eq_none_iff l a).mpr hmem) (by simp [h])

/-- Splicing out the first occurrence is `List.erase`. -/
theorem splice_firstIdx_eq_erase [DecidableEq α] (l : List α) (a : α) :
    ∀ i, firstIdx l a = some i → l.take i ++ l.drop (i + 1) = l.erase a := by
  induction l with
  | nil => intro i h; simp [firstIdx] at h
  | cons x xs ih =>
    intro i h
    simp only [firstIdx] at h
    by_cases hx : x == a
    · simp only [if_pos hx] at h
      have hi : i = 0 := by
        cases h; rfl
      subst hi
      simp [List.erase_cons, hx]
    · simp only [if_neg hx] at h
      cases hfi : firstIdx xs a with
      | none => exact absurd h (by rw [hfi]; simp)
      | some j =>
        rw [hfi] at h
        simp at h
        subst h
        simp only [List.take_succ_cons, List.drop_succ_cons, List.cons_append]
        rw [ih j hfi, List.erase_cons, if_neg hx]

/-- Insert into a list sorted by the boolean relation `le`. -/
def insertLe (le : α → α → Bool) (x : α) : List α → List α
  | [] => [x]
  | y :: ys => if le x y then x :: y :: ys else y :: insertLe le x ys

/-- Insertion sort by the boolean relation `le`; used to model JS
`Array.prototype.sort`, which for a consistent comparator produces the
list ordered by the comparator. -/
def sortLe (le : α → α → Bool) : List α → List α
  | [] => []
  | x :: xs => insertLe le x (sortLe le xs)

theorem perm_insertLe (le : α → α → Bool) (x : α) (l : List α) :
    (insertLe le x l).Perm (x :: l) := by
  induction l with
  | nil => simp [insertLe]
  | cons y ys ih =>
    simp only [insertLe]
    by_cases h : le x y = true
    · simp [h]
    · simp only [h, if_false]
      exact ((ih.cons y).trans (List.Perm.swap x y ys))

theorem perm_sortLe (le : α → α → Bool) (l : List α) :
    (sortLe le l).Perm l := by
  induction l with
  | nil => simp [sortLe]
  | cons x xs ih =>
    exact (perm_insertLe le x (sortLe le xs)).trans (ih.cons x)

/-- Sortedness of the output of `insertLe`, for a total transitive boolean
relation. -/
theorem pairwise_insertLe (le : α → α → Bool)
    (htot : ∀ a b, le a b = true ∨ le b a = true)
    (htrans : ∀ a b c, le a b = true → le b c = true → le a c = true)
    (x : α) (l : List α)
    (hl : l.Pairwise (fun a b => le a b = true)) :
    (insertLe le x l).Pairwise (fun a b => le a b = true) := by
  induction l with
  | nil => simp [insertLe]
  | cons y ys ih =>
    simp only [insertLe]
    rcases List.pairwise_cons.mp hl with ⟨hy, hys⟩
    by_cases h : le x y = true
    · simp only [h, if_true]
      refine List.pairwise_cons.mpr ⟨?_, hl⟩
      intro b hb
      rcases List.mem_cons.mp hb with hb | hb
      · rw [hb]; exact h
      · exact htrans x y b h (hy b hb)
    · simp only [h, if_false]
      refine List.pairwise_cons.mpr ⟨?_, ih hys⟩
      intro b hb
      have hxy : le y x = true := (htot x y).resolve_left h
      rcases List.mem_cons.mp ((perm_insertLe le x ys).mem_iff.mp hb) with hb | hb
      · rw [hb]; exact hxy
      · exact hy b hb

theorem pairwise_sortLe (le : α → α → Bool)
    (htot : ∀ a b, le a b = true ∨ le b a = true)
    (htrans : ∀ a b c, le a b = true → le b c = true → le a c = true)
    (l : List α) :
    (sortLe le l).Pairwise (fun a b => le a b = true) := by
  induction l with
  | nil => simp [sortLe]
  | cons x xs ih => exact pairwise_insertLe le htot htrans x (sortLe le xs) ih

/-- Two lists that are permutations of each other and both sorted by an
antisymmetric relation are equal. -/
theorem sortLe_eq_of_perm (le : α → α → Bool)
    (hanti : ∀ a b, le a b = true → le b a = true → a = b)
    {l₁ l₂ : List α} (hp : l₁.Perm l₂)
    (h₁ : l₁.Pairwise (fun a b => le a b = true))
    (h₂ : l₂.Pairwise (fun a b => le a b = true)) : l₁ = l₂ := by
  haveI : IsAntisymm α (fun a b => le a b = true) := ⟨hanti⟩
  exact List.eq_of_perm_of_sorted hp h₁ h₂

/-! ## Strings: the code-unit order used by JS `Array.prototype.sort` -/

/-- Lexicographic comparison of character lists by code point, the order in
which JS sorts an array of strings (UTF-16 code units; the embedding uses
code points, which agree on the characters produced by `queryKey`). -/
def clLe : List Char → List Char → Bool
  | [], _ => true
  | _ :: _, [] => false
  | a :: as, b :: bs =>
    if a.toNat < b.toNat then true
    else if b.toNat < a.toNat then false
    else clLe as bs

/-- String comparison via the underlying character list. -/
def strLe (a b : String) : Bool := clLe a.data b.data

theorem clLe_total : ∀ a b, clLe a b = true ∨ clLe b a = true
  | [], _ => Or.inl rfl
  | _ :: _, [] => Or.inr rfl
  | a :: as, b :: bs => by
    simp only [clLe]
    rcases Nat.lt_trichotomy a.toNat b.toNat with h | h | h
    · left; simp [h]
    · have h1 : ¬ a.toNat < b.toNat := by omega
      have h2 : ¬ b.toNat < a.toNat := by omega
      simp only [h1, h2, if_false]
      exact clLe_total as bs
    · right; simp [h]

theorem clLe_trans : ∀ a b c, clLe a b = true → clLe b c = true → clLe a c = true
  | [], _, _ => by intro _ _; rfl
  | a :: as, [], _ => by intro h _; simp [clLe] at h
  | _ :: _, _ :: _, [] => by intro _ h; simp [clLe] at h
  | a :: as, b :: bs, c :: cs => by
    intro hab hbc
    simp only [clLe] at hab hbc ⊢
    rcases Nat.lt_trichotomy a.toNat b.toNat with g1 | g1 | g1
    · rcases Nat.lt_trichotomy b.toNat c.toNat with g2 | g2 | g2
      · rw [if_pos (Nat.lt_trans g1 g2)]
      · rw [if_pos (show a.toNat < c.toNat by omega)]
      · rw [if_neg (show ¬ b.toNat < c.toNat by omega), if_pos g2] at hbc
        exact Bool.noConfusion hbc
    · rcases Nat.lt_trichotomy b.toNat c.toNat with g2 | g2 | g2
      · rw [if_pos (show a.toNat < c.toNat by omega)]
      · rw [if_neg (show ¬ a.toNat < c.toNat by omega),
          if_neg (show ¬ c.toNat < a.toNat by omega)]
        rw [if_neg (show ¬ a.toNat < b.toNat by omega),
          if_neg (show ¬ b.toNat < a.toNat by omega)] at hab
        rw [if_neg (show ¬ b.toNat < c.toNat by omega),
          if_neg (show ¬ c.toNat < b.toNat by omega)] at hbc
        exact clLe_trans as bs cs hab hbc
      · rw [if_neg (show ¬ b.toNat < c.toNat by omega), if_pos g2] at hbc
        exact Bool.noConfusion hbc
    · rw [if_neg (show ¬ a.toNat < b.toNat by omega), if_pos g1] at hab
      exact Bool.noConfusion hab

theorem clLe_antisymm : ∀ a b, clLe a b = true → clLe b a = true → a = b
  | [], [] => by intro _ _; rfl
  | [], _ :: _ => by intro _ h; simp [clLe] at h
  | _ :: _, [] => by intro h _; simp [clLe] at h
  | a :: as, b :: bs => by
    intro hab hba
    simp only [clLe] at hab hba
    rcases Nat.lt_trichotomy a.toNat b.toNat with g | g | g
    · rw [if_neg (show ¬ b.toNat < a.toNat by omega), if_pos g] at hba
      exact Bool.noConfusion hba
    · rw [if_neg (show ¬ a.toNat < b.toNat by omega),
        if_neg (show ¬ b.toNat < a.toNat by omega)] at hab
      rw [if_neg (show ¬ b.toNat < a.toNat by omega),
        if_neg (show ¬ a.toNat < b.toNat by omega)] at hba
      have h1 : a = b := Char.ext (UInt32.ext g)
      have h2 : as = bs := clLe_antisymm as bs hab hba
      rw [h1, h2]
    · rw [if_neg (show ¬ a.toNat < b.toNat by omega), if_pos g] at hab
      exact Bool.noConfusion hab

theorem strLe_total (a b : String) : strLe a b = true ∨ strLe b a = true :=
  clLe_total a.data b.data

theorem strLe_trans (a b c : String) :
    strLe a b = true → strLe b c = true → strLe a c = true :=
  clLe_trans a.data b.data c.data

theorem strLe_antisymm (a b : String) :
    strLe a b = true → strLe b a = true → a = b := by
  intro h1 h2
  have h := clLe_antisymm a.data b.data h1 h2
  cases a
  cases b
  exact congrArg String.mk h

/-! ## `queryKey` (src/unnamed/part_000 lines 206-224) -/

/-- One entry of the `Components` array passed to `queryKey` and `Query`:
either a component (identified by its name string) or an operator object as
produced by `Not(Component)` (lines 1301-1306), which has
`operator = "not"`. -/
inductive QTermS where
  | plain (name : String)
  | oper (operator : String) (name : String)
deriving Repr, DecidableEq

/-- The token pushed for one entry (lines 208-216): for an object entry the
operator `"not"` is rendered `"!"`, any other operator string is used as is,
followed by the component name; a plain entry contributes just the name. -/
def QTermS.token : QTermS → String
  | .plain n => n
  | .oper op n => (if op == "not" then "!" else op) ++ n

/-- `x.toLowerCase()` applied to each token (line 220). -/
def lowerStr (s : String) : String := ⟨s.data.map Char.toLower⟩

/-- `Array.prototype.join("-")` (line 223). -/
def joinDash : List String → String
  | [] => ""
  | [x] => x
  | x :: y :: xs => x ++ "-" ++ joinDash (y :: xs)

/-- `queryKey(Components)` (lines 206-224): map each entry to its token,
lowercase, sort, join with `"-"`. -/
def queryKey (ts : List QTermS) : String :=
  joinDash (sortLe strLe ((ts.map QTermS.token).map lowerStr))

/-- C9: for every list `L` of component-type entries (plain or Not-negated)
and every permutation `P` of `L`, `queryKey P = queryKey L`: the key is the
list of tokens (name, prefixed with `"!"` when negated) lowercased, sorted
lexicographically and joined with `"-"`, and sorting makes it independent of
the order of the entries. -/
theorem queryKey_perm_invariant (L P : List QTermS) (h : L.Perm P) :
    queryKey P = queryKey L := by
  unfold queryKey
  congr 1
  apply sortLe_eq_of_perm strLe strLe_antisymm
  · exact (perm_sortLe strLe _).trans
      (((h.map QTermS.token).map lowerStr).symm.trans (perm_sortLe strLe _).symm)
  · exact pairwise_sortLe strLe strLe_total strLe_trans _
  · exact pairwise_sortLe strLe strLe_total strLe_trans _

/-- Witness for C9 at a concrete permutation: swapping the two entries of
`[PositionB, Not(CompA)]` leaves the key unchanged. -/
theorem queryKey_perm_invariant_witness :
    queryKey [QTermS.oper "not" "CompA", QTermS.plain "PositionB"] =
      queryKey [QTermS.plain "PositionB", QTermS.oper "not" "CompA"] :=
  queryKey_perm_invariant _ _ (List.Perm.swap _ _ _)

/-! ## EventDispatcher (src/unnamed/part_000 lines 106-183)

A listener is modelled by an identity (JS compares listeners by function
identity) and by whether calling it raises an exception.  The dispatcher
state for one topic is its listener array plus the `stats` counters.
`dispatchEvent` (lines 164-175) increments `stats.fired`, takes a
`slice(0)` snapshot of the listener array and calls each listener in a
plain `for` loop with no `try`/`catch`, so an exception thrown by a
listener propagates out of `dispatchEvent` at once; `stats.handled` is
never incremented anywhere in the class (it is only reset, line 181). -/

structure Handler where
  hid : Nat
  throws : Bool
deriving Repr, DecidableEq

structure EventDispatcher where
  listeners : List Handler
  fired : Nat
  handled : Nat
deriving Repr, DecidableEq

/-- `addEventListener` (lines 120-129): appends unless already present. -/
def EventDispatcher.addEventListener (d : EventDispatcher) (h : Handler) :
    EventDispatcher :=
  if jsIndexOf d.listeners h == -1 then
    { d with listeners := d.listeners ++ [h] }
  else d

/-- The `for` loop of `dispatchEvent` over the snapshot array: returns the
ids of the listeners that were actually called, in call order, and whether
the loop was aborted by an exception. -/
def runHandlerList : List Handler → List Nat → List Nat × Bool
  | [], invoked => (invoked, false)
  | h :: rest, invoked =>
    if h.throws then (invoked ++ [h.hid], true)
    else runHandlerList rest (invoked ++ [h.hid])

structure DispatchResult where
  dispatcher : EventDispatcher
  invoked : List Nat
  threw : Bool
deriving Repr, DecidableEq

/-- `dispatchEvent` (lines 164-175). -/
def EventDispatcher.dispatchEvent (d : EventDispatcher) : DispatchResult :=
  let d1 : EventDispatcher := { d with fired := d.fired + 1 }
  let res := runHandlerList d.listeners []
  { dispatcher := d1, invoked := res.1, threw := res.2 }

theorem runHandlerList_clean_prefix (pre : List Handler) (t : Handler)
    (post : List Handler) (acc : List Nat)
    (hpre : ∀ h ∈ pre, h.throws = false) (ht : t.throws = true) :
    runHandlerList (pre ++ t :: post) acc =
      (acc ++ pre.map Handler.hid ++ [t.hid], true) := by
  induction pre generalizing acc with
  | nil => simp [runHandlerList, ht]
  | cons h rest ih =>
    have hh : h.throws = false := hpre h (List.mem_cons_self h rest)
    simp only [List.cons_append, runHandlerList, hh, Bool.false_eq_true,
      if_false, List.append_eq]
    rw [ih (acc ++ [h.hid]) (fun x hx => hpre x (List.mem_cons_of_mem h hx))]
    simp

/-- Counterexample to C4: a topic with two subscribed handlers where the
first throws.  The exception is not caught: it propagates out of
`dispatchEvent`, the second handler is never invoked, and `stats.handled`
is not incremented. -/
theorem dispatchEvent_throw_cex :
    (EventDispatcher.dispatchEvent
        { listeners := [⟨0, true⟩, ⟨1, false⟩], fired := 0, handled := 0 }).threw
        = true ∧
    (EventDispatcher.dispatchEvent
        { listeners := [⟨0, true⟩, ⟨1, false⟩], fired := 0, handled := 0 }).invoked
        = [0] ∧
    1 ∉ (EventDispatcher.dispatchEvent
        { listeners := [⟨0, true⟩, ⟨1, false⟩], fired := 0, handled := 0 }).invoked ∧
    (EventDispatcher.dispatchEvent
        { listeners := [⟨0, true⟩, ⟨1, false⟩], fired := 0, handled := 0 }).dispatcher.handled
        = 0 := by
  decide

/-- C4 amended: when a handler throws during `dispatchEvent`, the exception
propagates out of the dispatcher, exactly the handlers before it (plus the
thrower) are invoked and the remaining ones are not, `stats.fired` is still
incremented at entry, and `stats.handled` is never incremented (with or
without an exception it stays unchanged). -/
theorem dispatchEvent_throw_aborts (d : EventDispatcher)
    (pre post : List Handler) (t : Handler)
    (hl : d.listeners = pre ++ t :: post)
    (hpre : ∀ h ∈ pre, h.throws = false) (ht : t.throws = true) :
    d.dispatchEvent.threw = true ∧
    d.dispatchEvent.invoked = pre.map Handler.hid ++ [t.hid] ∧
    d.dispatchEvent.dispatcher.fired = d.fired + 1 ∧
    d.dispatchEvent.dispatcher.handled = d.handled := by
  unfold EventDispatcher.dispatchEvent
  rw [hl, runHandlerList_clean_prefix pre t post [] hpre ht]
  simp

/-- Witness for C4 amended at a concrete dispatcher: one clean handler
followed by a throwing one. -/
theorem dispatchEvent_throw_aborts_witness :
    (EventDispatcher.dispatchEvent
        { listeners := [⟨5, false⟩, ⟨6, true⟩, ⟨7, false⟩],
          fired := 3, handled := 2 }).invoked = [5, 6] ∧
    (EventDispatcher.dispatchEvent
        { listeners := [⟨5, false⟩, ⟨6, true⟩, ⟨7, false⟩],
          fired := 3, handled := 2 }).dispatcher.handled = 2 := by
  have h := dispatchEvent_throw_aborts
    { listeners := [⟨5, false⟩, ⟨6, true⟩, ⟨7, false⟩], fired := 3, handled := 2 }
    [⟨5, false⟩] [⟨7, false⟩] ⟨6, true⟩ rfl (by decide) rfl
  exact ⟨h.2.1, h.2.2.2⟩

/-! ## ObjectPool (src/unnamed/part_000 lines 534-594)

The data carried by one pooled instance is condensed to a single `Nat`
payload.  The class `T` the pool is built over is described by whether its
instances have an `__init` method (`hasInit`, with behaviour `initFn`),
whether they have a `copy` method (`hasCopy`, with behaviour
`copyFn self src`), and the payload `newVal` of a freshly constructed
`new T()`.  The free list is a stack: JS `push`/`pop` act on the array
tail, modelled as cons/head. -/

structure PoolClass where
  hasInit : Bool
  initFn : Nat → Nat
  hasCopy : Bool
  copyFn : Nat → Nat → Nat
  newVal : Nat

structure ObjectPool where
  cls : PoolClass
  freeList : List Nat
  count : Nat
  initialObject : Nat

/-- The `ObjectPool` constructor (lines 535-555): empty free list, zero
count, and a prototype `initialObject = createElement()` retained for the
`copy` fallback. -/
def ObjectPool.make (cls : PoolClass) : ObjectPool :=
  { cls := cls, freeList := [], count := 0, initialObject := cls.newVal }

/-- `Math.round(count * 0.2)` on a nonnegative integer count:
`floor(count/5 + 1/2) = floor((2*count+5)/10)`. -/
def jsRound02 (count : Nat) : Nat := (2 * count + 5) / 10

/-- `expand(count)` (lines 576-581): pushes `count` fresh elements and adds
them to the total. -/
def ObjectPool.expand (p : ObjectPool) (k : Nat) : ObjectPool :=
  { p with freeList := List.replicate k p.cls.newVal ++ p.freeList,
           count := p.count + k }

/-- `aquire()` (lines 557-570): grow by `Math.round(count*0.2)+1` when the
free list is empty; pop; then `if (item.__init) item.__init(); else if
(item.copy) item.copy(this.initialObject);` — an instance with neither
method is returned with whatever payload it was released with. -/
def ObjectPool.aquire (p : ObjectPool) : Nat × ObjectPool :=
  let p := if p.freeList.length ≤ 0 then p.expand (jsRound02 p.count + 1) else p
  match p.freeList with
  | [] => (p.cls.newVal, p)
  | item :: rest =>
    let item := if p.cls.hasInit then p.cls.initFn item
      else if p.cls.hasCopy then p.cls.copyFn item p.initialObject
      else item
    (item, { p with freeList := rest })

/-- `release(item)` (lines 572-574). -/
def ObjectPool.release (p : ObjectPool) (item : Nat) : ObjectPool :=
  { p with freeList := item :: p.freeList }

def ObjectPool.totalSize (p : ObjectPool) : Nat := p.count

def ObjectPool.totalFree (p : ObjectPool) : Nat := p.freeList.length

def ObjectPool.totalUsed (p : ObjectPool) : Nat := p.count - p.freeList.length

/-- Modelled from the spec wording of C5 for comparison with the code:
"if the instance has a reset hook it is invoked, otherwise the instance's
fields are copied field-wise from a prototype instance captured at pool
construction" — i.e. without a reset hook the acquired payload becomes the
prototype payload unconditionally. -/
def ObjectPool.aquireSpecModel (p : ObjectPool) : Nat × ObjectPool :=
  let p := if p.freeList.length ≤ 0 then p.expand (jsRound02 p.count + 1) else p
  match p.freeList with
  | [] => (p.cls.newVal, p)
  | item :: rest =>
    let item := if p.cls.hasInit then p.cls.initFn item else p.initialObject
    (item, { p with freeList := rest })

/-- A component class with neither an `__init` nor a `copy` method; fresh
instances carry payload 0. -/
def noHookClass : PoolClass :=
  { hasInit := false, initFn := fun s => s, hasCopy := false,
    copyFn := fun s _ => s, newVal := 0 }

/-- A component class whose `__init` (reset hook) zeroes the payload. -/
def resetClass : PoolClass :=
  { hasInit := true, initFn := fun _ => 0, hasCopy := false,
    copyFn := fun s _ => s, newVal := 0 }

/-- Counterexample to C5: for a class with neither hook, an instance
released with payload 7 (its previous owner's value) is acquired again
with payload 7, not restored to the prototype payload 0 required by the
claim. -/
theorem aquire_no_reset_cex :
    (((ObjectPool.make noHookClass).release 7).aquire).1 = 7 ∧
    (((ObjectPool.make noHookClass).release 7).aquireSpecModel).1 = 0 ∧
    (((ObjectPool.make noHookClass).release 7).aquire).1 ≠
      (((ObjectPool.make noHookClass).release 7).aquireSpecModel).1 := by
  decide

/-- C5 amended: on acquire of a released instance, if the class has an
`__init` hook it is invoked on the popped payload; otherwise, if it has a
`copy` method, the payload becomes `copy`'s result against the prototype;
otherwise the payload is returned exactly as released, so it may retain
values from its previous owner. -/
theorem aquire_reset_behaviour (p : ObjectPool) (x : Nat) :
    (p.cls.hasInit = true → ((p.release x).aquire).1 = p.cls.initFn x) ∧
    (p.cls.hasInit = false → p.cls.hasCopy = true →
      ((p.release x).aquire).1 = p.cls.copyFn x p.initialObject) ∧
    (p.cls.hasInit = false → p.cls.hasCopy = false →
      ((p.release x).aquire).1 = x) := by
  refine ⟨fun h1 => ?_, fun h1 h2 => ?_, fun h1 h2 => ?_⟩ <;>
    simp [ObjectPool.release, ObjectPool.aquire, h1]
  · simp [h2]
  · simp [h2]

/-- Witness for C5 amended: with a reset hook that zeroes the payload, an
instance released dirty (payload 7) is acquired reset to 0. -/
theorem aquire_reset_behaviour_witness :
    (((ObjectPool.make resetClass).release 7).aquire).1 = 0 :=
  (aquire_reset_behaviour (ObjectPool.make resetClass) 7).1 rfl

/-! ## SystemManager (src/unnamed/part_000 lines 27-101, 1191-1213)

A registered system is condensed to the fields of `System` that the
manager reads: an id for the registered class, `priority` (set by the
`System` constructor from `attributes.priority`, default 0), the
registration counter `order` set by `registerSystem`, and the `enabled`
and `initialized` flags (both set true by the constructor). -/

structure SystemRec where
  sid : Nat
  priority : Int
  order : Nat
  enabled : Bool
  initialized : Bool
deriving Repr, DecidableEq

/-- The comparator of `sortSystems` (lines 45-49):
`a.priority - b.priority || a.order - b.order` orders ascending by
priority, ties broken by ascending order. -/
def sysLe (a b : SystemRec) : Bool :=
  if a.priority < b.priority then true
  else if b.priority < a.priority then false
  else decide (a.order ≤ b.order)

theorem sysLe_total (a b : SystemRec) : sysLe a b = true ∨ sysLe b a = true := by
  unfold sysLe
  rcases Int.lt_trichotomy a.priority b.priority with g | g | g
  · left; rw [if_pos g]
  · rcases Nat.le_total a.order b.order with h | h
    · left
      rw [if_neg (show ¬ a.priority < b.priority by omega),
        if_neg (show ¬ b.priority < a.priority by omega)]
      simpa using h
    · right
      rw [if_neg (show ¬ b.priority < a.priority by omega),
        if_neg (show ¬ a.priority < b.priority by omega)]
      simpa using h
  · right; rw [if_pos g]

theorem sysLe_trans (a b c : SystemRec) :
    sysLe a b = true → sysLe b c = true → sysLe a c = true := by
  unfold sysLe
  intro hab hbc
  rcases Int.lt_trichotomy a.priority b.priority with g1 | g1 | g1 <;>
    rcases Int.lt_trichotomy b.priority c.priority with g2 | g2 | g2
  all_goals first
    | (rw [if_pos (show a.priority < c.priority by omega)])
    | (rw [if_neg (show ¬ b.priority < c.priority by omega),
        if_pos (show c.priority < b.priority by omega)] at hbc
       exact Bool.noConfusion hbc)
    | (rw [if_neg (show ¬ a.priority < b.priority by omega),
        if_pos (show b.priority < a.priority by omega)] at hab
       exact Bool.noConfusion hab)
    | (rw [if_neg (show ¬ a.priority < b.priority by omega),
        if_neg (show ¬ b.priority < a.priority by omega)] at hab
       rw [if_neg (show ¬ b.priority < c.priority by omega),
        if_neg (show ¬ c.priority < b.priority by omega)] at hbc
       rw [if_neg (show ¬ a.priority < c.priority by omega),
        if_neg (show ¬ c.priority < a.priority by omega)]
       simp only [decide_eq_true_eq] at hab hbc ⊢
       omega)

/-- The record built by `new System(world, attributes)` followed by
`system.order = this.systems.length` (lines 37-40, 1191-1213). -/
def SystemManager.mkSystem (sid : Nat) (priority : Int) (order : Nat) :
    SystemRec :=
  { sid := sid, priority := priority, order := order,
    enabled := true, initialized := true }

/-- `sortSystems` (lines 45-49): sort by the comparator. -/
def SystemManager.sortSystems (systems : List SystemRec) : List SystemRec :=
  sortLe sysLe systems

/-- `registerSystem` (lines 37-43): build the system with
`order = systems.length`, push, re-sort. -/
def SystemManager.registerSystem (systems : List SystemRec) (sid : Nat)
    (priority : Int) : List SystemRec :=
  SystemManager.sortSystems
    (systems ++ [SystemManager.mkSystem sid priority systems.length])

/-- Register a batch of `(sid, priority)` pairs in order, from an empty
manager. -/
def SystemManager.registerAll (regs : List (Nat × Int)) : List SystemRec :=
  regs.foldl (fun systems reg => SystemManager.registerSystem systems reg.1 reg.2) []

/-- The order in which `execute` (lines 67-78) visits and runs systems:
array order, filtered by `enabled && initialized`. -/
def SystemManager.executeOrder (systems : List SystemRec) : List Nat :=
  (systems.filter (fun sys => sys.enabled && sys.initialized)).map SystemRec.sid

theorem registerSystem_length (systems : List SystemRec) (sid : Nat) (p : Int) :
    (SystemManager.registerSystem systems sid p).length = systems.length + 1 := by
  unfold SystemManager.registerSystem SystemManager.sortSystems
  rw [(perm_sortLe sysLe _).length_eq]
  simp

theorem registerAll_go_perm (regs : List (Nat × Int)) :
    ∀ acc : List SystemRec,
      (regs.foldl (fun systems reg =>
          SystemManager.registerSystem systems reg.1 reg.2) acc).Perm
        (acc ++ (List.enumFrom acc.length regs).map
          (fun p => SystemManager.mkSystem p.2.1 p.2.2 p.1)) := by
  induction regs with
  | nil => intro acc; simp
  | cons r rest ih =>
    intro acc
    rw [List.foldl_cons]
    have h1 := ih (SystemManager.registerSystem acc r.1 r.2)
    rw [registerSystem_length] at h1
    refine h1.trans ?_
    have h2 : (SystemManager.registerSystem acc r.1 r.2).Perm
        (acc ++ [SystemManager.mkSystem r.1 r.2 acc.length]) :=
      perm_sortLe sysLe _
    refine ((h2.append_right _).trans ?_)
    rw [List.enumFrom_cons, List.map_cons, List.append_assoc]
    simp

theorem registerAll_go_pairwise (regs : List (Nat × Int)) :
    ∀ acc : List SystemRec, acc.Pairwise (fun a b => sysLe a b = true) →
      (regs.foldl (fun systems reg =>
          SystemManager.registerSystem systems reg.1 reg.2) acc).Pairwise
        (fun a b => sysLe a b = true) := by
  induction regs with
  | nil => intro acc h; exact h
  | cons r rest ih =>
    intro acc _
    rw [List.foldl_cons]
    exact ih _ (pairwise_sortLe sysLe sysLe_total sysLe_trans _)

/-- C8: each tick executes the enabled systems ascending by `priority`,
with equal priorities broken by registration order: the manager's list is
always sorted by the comparator `(priority, order)` and is a permutation
of the registered systems with `order` recording the registration
position; in particular registering S1 (priority 10), S2 (priority 1),
S3 (priority 10) in that order yields execution order S2, S1, S3. -/
theorem systems_execute_in_priority_order :
    (∀ regs : List (Nat × Int),
      (SystemManager.registerAll regs).Pairwise (fun a b => sysLe a b = true) ∧
      (SystemManager.registerAll regs).Perm
        (regs.enum.map (fun p => SystemManager.mkSystem p.2.1 p.2.2 p.1))) ∧
    SystemManager.executeOrder
      (SystemManager.registerAll [(1, 10), (2, 1), (3, 10)]) = [2, 1, 3] := by
  refine ⟨fun regs => ⟨?_, ?_⟩, ?_⟩
  · exact registerAll_go_pairwise regs [] List.Pairwise.nil
  · have h := registerAll_go_perm regs []
    simpa [List.enum] using h
  · decide

/-! ## System event buffers (src/unnamed/part_000 lines 1227-1266)

The listener the `System` constructor subscribes for the entity-keyed
topics `EntityAdded`, `EntityRemoved` and `EntityChanged` (lines
1240-1248) pushes the entity only when `indexOf` misses; the listener for
`ComponentChanged` with an explicit `components` filter (lines 1252-1261)
pushes the entity on every event whose component constructor is in the
filter, with no duplicate check.  A buffer is the fold of one tick's
events over the listener, starting from the empty array left by
`clearEvents`. -/

/-- The push performed for `EntityAdded` / `EntityRemoved` /
`EntityChanged` (lines 1243-1247). -/
def System.entityEventPush (buf : List Nat) (entity : Nat) : List Nat :=
  if jsIndexOf buf entity == -1 then buf ++ [entity] else buf

/-- The push performed for `ComponentChanged` with a `components` filter
(lines 1256-1259); an event is the pair (entity, component constructor). -/
def System.componentChangedPush (filterCs : List Nat) (buf : List Nat)
    (ev : Nat × Nat) : List Nat :=
  if jsIndexOf filterCs ev.2 == -1 then buf else buf ++ [ev.1]

/-- Buffer contents after one tick's entity-keyed events. -/
def System.entityEventBuffer (evs : List Nat) : List Nat :=
  evs.foldl System.entityEventPush []

/-- Buffer contents after one tick's component-changed events. -/
def System.componentChangedBuffer (filterCs : List Nat)
    (evs : List (Nat × Nat)) : List Nat :=
  evs.foldl (System.componentChangedPush filterCs) []

theorem entityEventPush_nodup (buf : List Nat) (e : Nat) (h : buf.Nodup) :
    (System.entityEventPush buf e).Nodup := by
  unfold System.entityEventPush
  by_cases hm : e ∈ buf
  · rw [if_neg]
    · exact h
    · simp only [beq_iff_eq]
      exact fun hc => absurd hm ((jsIndexOf_eq_neg_one_iff buf e).mp hc)
  · rw [if_pos (by simp [(jsIndexOf_eq_neg_one_iff buf e).mpr hm])]
    exact ((List.perm_append_singleton e buf).nodup_iff).mpr
      (List.nodup_cons.mpr ⟨hm, h⟩)

theorem entityEventBuffer_go_nodup (evs : List Nat) :
    ∀ acc : List Nat, acc.Nodup →
      (evs.foldl System.entityEventPush acc).Nodup := by
  induction evs with
  | nil => intro acc h; exact h
  | cons e rest ih =>
    intro acc h
    exact ih _ (entityEventPush_nodup acc e h)

theorem componentChangedBuffer_go_count (filterCs : List Nat)
    (evs : List (Nat × Nat)) (e : Nat) :
    ∀ acc : List Nat,
      (evs.foldl (System.componentChangedPush filterCs) acc).count e =
        acc.count e +
          (evs.filter (fun ev => ev.1 == e &&
            !(jsIndexOf filterCs ev.2 == -1))).length := by
  induction evs with
  | nil => intro acc; simp
  | cons ev rest ih =>
    intro acc
    rw [List.foldl_cons]
    rw [ih (System.componentChangedPush filterCs acc ev)]
    unfold System.componentChangedPush
    by_cases hf : jsIndexOf filterCs ev.2 == -1
    · simp only [hf, if_true, List.filter_cons]
      simp
    · simp only [hf, if_false, List.filter_cons]
      by_cases he : ev.1 = e
      · simp [List.count_append, he, hf]
        omega
      · have hbe : (ev.1 == e) = false := by simp [he]
        simp [List.count_append, hbe, he, List.count_singleton]

/-- C6: within a single tick, entity-keyed topics (`EntityAdded`,
`EntityRemoved`, `EntityChanged`) hold each entity at most once, while a
`ComponentChanged` subscription with an explicit component filter appends
one entry per matching mutation, so repeated mutations of the same
entity's component in one tick appear multiple times. -/
theorem event_buffer_dedup_asymmetry :
    (∀ (evs : List Nat) (e : Nat),
      (System.entityEventBuffer evs).count e ≤ 1) ∧
    (∀ (filterCs : List Nat) (evs : List (Nat × Nat)) (e : Nat),
      (System.componentChangedBuffer filterCs evs).count e =
        (evs.filter (fun ev => ev.1 == e &&
          !(jsIndexOf filterCs ev.2 == -1))).length) := by
  constructor
  · intro evs e
    exact List.nodup_iff_count_le_one.mp
      (entityEventBuffer_go_nodup evs [] List.nodup_nil) e
  · intro filterCs evs e
    have h := componentChangedBuffer_go_count filterCs evs e []
    simpa using h

/-- Concrete reading of C6: the same mutation delivered twice in a tick is
buffered once for `EntityChanged` and twice for filtered
`ComponentChanged`. -/
theorem buffer_dedup_concrete_run :
    System.entityEventBuffer [4, 4] = [4] ∧
    System.componentChangedBuffer [9] [(4, 9), (4, 9)] = [4, 4] := by
  decide

/-! ## Entity store, queries and query index
(src/unnamed/part_000 lines 229-326, 362-529, 599-883)

Entities are arena-allocated: a JS `Entity` object is the slot of
`EMState.heap` it occupies, and object references (in `_entities`, in
`Query.entities`, in the entity pool's free list) are slot indices, which
mirrors JS object identity — including identity across reuse of a pooled
entity.  A query object is identified by its canonical `key`, faithful to
object identity because `getQuery` memoizes exactly one `Query` object
per key.  Component types are the ids of their registered constructors,
`compName` standing for `Component.name`.  Component instance payloads,
per-type pools, tags and the `_components` map (which mirrors
`_ComponentTypes`) are not modelled: no claim settled on this state
machine depends on them. -/

abbrev CompT := Nat

/-- `Component.name` for the modelled constructors: decimal digits, hence
unaffected by `toLowerCase` and never starting with `"!"`. -/
def compName (c : CompT) : String := toString c

/-- An entry of a query's component list: a component constructor or the
`Not(Component)` marker (lines 1301-1306). -/
inductive QTerm where
  | plain (c : CompT)
  | notT (c : CompT)
deriving Repr, DecidableEq

def QTerm.toTermS : QTerm → QTermS
  | QTerm.plain c => QTermS.plain (compName c)
  | QTerm.notT c => QTermS.oper "not" (compName c)

def queryKeyOfTerms (ts : List QTerm) : String :=
  queryKey (ts.map QTerm.toTermS)

/-- The fields of `Entity` (lines 362-388) that the store and query index
read: `id`, whether `_world` is non-null, `_ComponentTypes`, the `queries`
back-reference list (by query key) and the deferred `componentsToRemove`
list (a stack: JS push/pop act on the array tail, modelled cons/head). -/
structure Entity where
  eid : Nat
  worldAttached : Bool
  componentTypes : List CompT
  queriesKeys : List String
  componentsToRemove : List CompT
deriving Repr, DecidableEq

instance : Inhabited Entity :=
  ⟨{ eid := 0, worldAttached := false, componentTypes := [],
     queriesKeys := [], componentsToRemove := [] }⟩

/-- `new Entity()` with no world argument (lines 368-388): fresh id from
the global counter, null world pointer, empty lists. -/
def freshEntity (n : Nat) : Entity :=
  { eid := n, worldAttached := false, componentTypes := [],
    queriesKeys := [], componentsToRemove := [] }

/-- The fields of `Query` (lines 233-255). -/
structure Query where
  key : String
  components : List CompT
  notComponents : List CompT
  entities : List Nat
  reactive : Bool
deriving Repr, DecidableEq

/-- `Query.match(entity)` (lines 298-312) as a function of the entity's
`_ComponentTypes`: every positive component present and every
`Not` component absent. -/
def Query.matchTypes (q : Query) (tys : List CompT) : Bool :=
  (q.components.all fun c => !(jsIndexOf tys c == -1)) &&
  (q.notComponents.all fun c => jsIndexOf tys c == -1)

def Query.matchE (q : Query) (e : Entity) : Bool :=
  q.matchTypes e.componentTypes

/-- `Query.addEntity` (lines 272-277): push the query onto the entity's
back-reference list and the entity onto the query's list.  (The
`ENTITY_ADDED` dispatch goes to the per-query dispatcher, whose listener
behaviour is modelled separately by the `System` buffer functions.) -/
def Query.addEntityOp (q : Query) (r : Nat) (e : Entity) : Query × Entity :=
  ({ q with entities := q.entities ++ [r] },
   { e with queriesKeys := e.queriesKeys ++ [q.key] })

/-- `Query.removeEntity` (lines 283-296): if the entity is present, splice
it out of the query's list, then splice the query out of the entity's
back-reference list at `indexOf(query)` — when the back-reference is
missing that is `splice(-1, 1)`, which removes the **last**
back-reference. -/
def Query.removeEntityOp (q : Query) (r : Nat) (e : Entity) : Query × Entity :=
  match firstIdx q.entities r with
  | none => (q, e)
  | some i =>
    ({ q with entities := q.entities.take i ++ q.entities.drop (i + 1) },
     { e with queriesKeys :=
        match firstIdx e.queriesKeys q.key with
        | some j => e.queriesKeys.take j ++ e.queriesKeys.drop (j + 1)
        | none => e.queriesKeys.dropLast })

/-- Events dispatched on the `EntityManager` dispatcher (lines 980-983);
the state records the dispatch log (the dispatcher's `stats.fired` is its
length). -/
inductive EMEvent where
  | entityCreated (r : Nat)
  | entityRemoved (r : Nat)
  | componentAdded (r : Nat) (c : CompT)
  | componentRemove (r : Nat) (c : CompT)
deriving Repr, DecidableEq

/-- The state owned by `EntityManager` (lines 703-721) together with the
query index of its `QueryManager` (lines 599-605) and the entity pool. -/
structure EMState where
  nextId : Nat
  heap : List Entity
  entities : List Nat
  queries : List Query
  entitiesToRemove : List Nat
  entitiesWithComponentsToRemove : List Nat
  free : List Nat
  poolCount : Nat
  events : List EMEvent
deriving Repr, DecidableEq

def EMState.heapGet (s : EMState) (r : Nat) : Entity :=
  s.heap.getD r default

def EMState.updEnt (s : EMState) (r : Nat) (f : Entity → Entity) : EMState :=
  { s with heap := s.heap.set r (f (s.heap.getD r default)) }

/-- The loop of `QueryManager.onEntityComponentAdded` (lines 621-649) over
the indexed queries, threading the entity object through the mutations
performed by `removeEntity` / `addEntity`. -/
def qmAddedLoop (r : Nat) (c : CompT) (e : Entity) :
    List Query → List Query × Entity
  | [] => ([], e)
  | q :: qs =>
    if !(jsIndexOf q.notComponents c == -1) &&
        !(jsIndexOf q.entities r == -1) then
      let p := q.removeEntityOp r e
      let rest := qmAddedLoop r c p.2 qs
      (p.1 :: rest.1, rest.2)
    else if jsIndexOf q.components c == -1 || !(q.matchE e) ||
        !(jsIndexOf q.entities r == -1) then
      let rest := qmAddedLoop r c e qs
      (q :: rest.1, rest.2)
    else
      let p := q.addEntityOp r e
      let rest := qmAddedLoop r c p.2 qs
      (p.1 :: rest.1, rest.2)

/-- The loop of `QueryManager.onEntityComponentRemoved` (lines 656-673):
note that the first branch adds the entity whenever the removed component
is one of the query's `Not` components and the entity is not yet listed,
without consulting `match`. -/
def qmRemovedLoop (r : Nat) (c : CompT) (e : Entity) :
    List Query → List Query × Entity
  | [] => ([], e)
  | q :: qs =>
    if !(jsIndexOf q.notComponents c == -1) &&
        (jsIndexOf q.entities r == -1) then
      let p := q.addEntityOp r e
      let rest := qmRemovedLoop r c p.2 qs
      (p.1 :: rest.1, rest.2)
    else if jsIndexOf q.components c == -1 then
      let rest := qmRemovedLoop r c e qs
      (q :: rest.1, rest.2)
    else if !(q.matchE e) then
      let rest := qmRemovedLoop r c e qs
      (q :: rest.1, rest.2)
    else
      let p := q.removeEntityOp r e
      let rest := qmRemovedLoop r c p.2 qs
      (p.1 :: rest.1, rest.2)

/-- The loop of `QueryManager.onEntityRemoved` (lines 607-614), guarded by
the entity's back-reference list. -/
def qmEntityRemovedLoop (r : Nat) (e : Entity) :
    List Query → List Query × Entity
  | [] => ([], e)
  | q :: qs =>
    if !(jsIndexOf e.queriesKeys q.key == -1) then
      let p := q.removeEntityOp r e
      let rest := qmEntityRemovedLoop r p.2 qs
      (p.1 :: rest.1, rest.2)
    else
      let rest := qmEntityRemovedLoop r e qs
      (q :: rest.1, rest.2)

def EMState.qmOnEntityComponentAdded (s : EMState) (r : Nat) (c : CompT) :
    EMState :=
  let p := qmAddedLoop r c (s.heapGet r) s.queries
  EMState.updEnt { s with queries := p.1 } r (fun _ => p.2)

def EMState.qmOnEntityComponentRemoved (s : EMState) (r : Nat) (c : CompT) :
    EMState :=
  let p := qmRemovedLoop r c (s.heapGet r) s.queries
  EMState.updEnt { s with queries := p.1 } r (fun _ => p.2)

def EMState.qmOnEntityRemoved (s : EMState) (r : Nat) : EMState :=
  let p := qmEntityRemovedLoop r (s.heapGet r) s.queries
  EMState.updEnt { s with queries := p.1 } r (fun _ => p.2)

/-- `entityAddComponent` (lines 742-768): no-op when the entity already
owns the type; otherwise push the type, acquire an instance (payload not
modelled), update the query index, dispatch `COMPONENT_ADDED`. -/
def EMState.entityAddComponent (s : EMState) (r : Nat) (c : CompT) : EMState :=
  if !(jsIndexOf (s.heapGet r).componentTypes c == -1) then s
  else
    let s1 := s.updEnt r
      (fun e => { e with componentTypes := e.componentTypes ++ [c] })
    let s2 := s1.qmOnEntityComponentAdded r c
    { s2 with events := s2.events ++ [EMEvent.componentAdded r c] }

/-- `_entityRemoveComponentSync` (lines 794-803): splice the type at the
index computed by the caller (possibly -1, then JS removes the last
entry); the instance release to its pool is not modelled. -/
def EMState.entityRemoveComponentSync (s : EMState) (r : Nat) (i : Int) :
    EMState :=
  s.updEnt r (fun e => { e with componentTypes := jsSplice1 e.componentTypes i })

/-- `entityRemoveComponent` (lines 776-792): no-op when the type is not
owned; otherwise dispatch `COMPONENT_REMOVE`, update the query index
(while the type is still attached), then either remove synchronously at
the pre-computed index or enqueue the type on the entity (and the entity
in the manager's pending list, only when its pending list was empty). -/
def EMState.entityRemoveComponent (s : EMState) (r : Nat) (c : CompT)
    (forceRemove : Bool) : EMState :=
  let i := jsIndexOf (s.heapGet r).componentTypes c
  if i == -1 then s
  else
    let s1 := { s with events := s.events ++ [EMEvent.componentRemove r c] }
    let s2 := s1.qmOnEntityComponentRemoved r c
    if forceRemove then s2.entityRemoveComponentSync r i
    else
      let s3 := if (s2.heapGet r).componentsToRemove.length == 0 then
          { s2 with entitiesWithComponentsToRemove :=
              s2.entitiesWithComponentsToRemove ++ [r] }
        else s2
      s3.updEnt r
        (fun e => { e with componentsToRemove := c :: e.componentsToRemove })

/-- `entityRemoveAllComponents` (lines 809-815): the JS loop walks the
live `_ComponentTypes` array from the last index down; in the forced case
step `j` removes exactly the element at index `j` (higher indices are
already gone) and in the deferred case the array is unchanged, so in both
cases step `j` reads the `j`-th element of the initial array — the loop
is the fold of `entityRemoveComponent` over the initial list reversed. -/
def EMState.entityRemoveAllComponents (s : EMState) (r : Nat)
    (forceRemove : Bool) : EMState :=
  (s.heapGet r).componentTypes.reverse.foldl
    (fun s2 c => s2.entityRemoveComponent r c forceRemove) s

/-- `_removeEntitySync` (lines 838-854): splice from `_entities` at the
index computed by the caller, force-remove all components (the query
index still reacts to each removal), clear tags (tags are not modelled:
no claim concerns them), null the world back-reference and release the
entity object to the pool. -/
def EMState.removeEntitySync (s : EMState) (r : Nat) (i : Int) : EMState :=
  let s1 := { s with entities := jsSplice1 s.entities i }
  let s2 := s1.entityRemoveAllComponents r true
  let s3 := s2.updEnt r (fun e => { e with worldAttached := false })
  { s3 with free := r :: s3.free }

/-- `removeEntity` (lines 822-836): throws on an entity not in the list
(the exception is raised before any mutation, so the state is returned
unchanged); otherwise dispatch `ENTITY_REMOVED`, remove the entity from
every query holding it, then destroy now or enqueue. -/
def EMState.removeEntity (s : EMState) (r : Nat) (forceRemove : Bool) :
    EMState :=
  let i := jsIndexOf s.entities r
  if i == -1 then s
  else
    let s1 := { s with events := s.events ++ [EMEvent.entityRemoved r] }
    let s2 := s1.qmOnEntityRemoved r
    if forceRemove then s2.removeEntitySync r i
    else { s2 with entitiesToRemove := s2.entitiesToRemove ++ [r] }

/-- One iteration of the entity pool's `expand` loop (lines 577-579):
`freeList.push(new Entity())` — the fresh object occupies the next arena
slot, takes the next global id, and its slot index is pushed on the free
list. -/
def EMState.expandStep (s : EMState) : EMState :=
  { s with heap := s.heap ++ [freshEntity s.nextId],
           nextId := s.nextId + 1,
           free := s.heap.length :: s.free }

def EMState.expandLoop : EMState → Nat → EMState
  | s, 0 => s
  | s, Nat.succ k => EMState.expandLoop s.expandStep k

/-- `ObjectPool.expand` of the entity pool (lines 576-581): push `k`
entities built by `new Entity()` (each takes a fresh global id), then add
`k` to the pool count. -/
def EMState.expandEntityPool (s : EMState) (k : Nat) : EMState :=
  let s1 := EMState.expandLoop s k
  { s1 with poolCount := s1.poolCount + k }

/-- The `Entity.__init` field writes (lines 514-521: fresh id, cleared
component types, back-references and component map — but **not**
`componentsToRemove`) merged with `createEntity`'s immediate re-attach of
the world pointer (line 728); consecutive field writes on the same
freshly popped object, modelled as one arena update. -/
def initEntityFn (n : Nat) (e : Entity) : Entity :=
  { e with eid := n, worldAttached := true, componentTypes := [],
           queriesKeys := [] }

/-- The tail of `createEntity` after the pool pop (lines 727-731): run
the `__init`/attach writes, push to `_entities`, dispatch
`ENTITY_CREATED`; the global id counter is incremented after use. -/
def EMState.initAndStore (s1 : EMState) (r : Nat) (rest : List Nat) :
    EMState :=
  let s2 := { s1 with free := rest }
  let s3 := s2.updEnt r (initEntityFn s2.nextId)
  let s4 := { s3 with nextId := s3.nextId + 1 }
  { s4 with entities := s4.entities ++ [r],
            events := s4.events ++ [EMEvent.entityCreated r] }

/-- `createEntity` (lines 726-732): `aquire()` on the entity pool — grow
by `Math.round(count*0.2)+1` when the free list is empty, pop, initialize
and store. -/
def EMState.createEntity (s : EMState) : EMState :=
  let s1 := if s.free.length ≤ 0 then
      s.expandEntityPool (jsRound02 s.poolCount + 1)
    else s
  match s1.free with
  | [] => s1
  | r :: rest => s1.initAndStore r rest

/-- The positive components collected by the `Query` constructor's
`forEach` split (lines 237-243), in order. -/
def qtermsPos (ts : List QTerm) : List CompT :=
  ts.filterMap (fun t => match t with | QTerm.plain c => some c | _ => none)

/-- The `Not` components collected by the `Query` constructor's `forEach`
split (lines 237-243), in order. -/
def qtermsNot (ts : List QTerm) : List CompT :=
  ts.filterMap (fun t => match t with | QTerm.notT c => some c | _ => none)

/-- One step of the `Query` constructor's scan over `manager._entities`
(lines 258-265): a matching entity gets the query pushed on its
back-references and is pushed on the query's list, with no event. -/
def getQueryScanStep (key : String) (acc : EMState × Query) (r : Nat) :
    EMState × Query :=
  if acc.2.matchE (acc.1.heapGet r) then
    (acc.1.updEnt r
      (fun e => { e with queriesKeys := e.queriesKeys ++ [key] }),
     { acc.2 with entities := acc.2.entities ++ [r] })
  else acc

/-- The fresh query record before the constructor scan (lines 233-255):
empty entity list, not reactive, canonical key. -/
def mkScanQuery (ts : List QTerm) (key : String) : Query :=
  { key := key, components := qtermsPos ts, notComponents := qtermsNot ts,
    entities := [], reactive := false }

/-- `new Query(Components, manager)` (lines 233-266) followed by the
memo-map insertion of `getQuery`: throw (before any mutation) when there
is no positive component; otherwise scan `_entities` in order, silently
adding every matching entity, and index the new query. -/
def EMState.getQueryNew (s : EMState) (ts : List QTerm) (key : String) :
    EMState :=
  if (qtermsPos ts).length == 0 then s
  else
    let p := s.entities.foldl (getQueryScanStep key) (s, mkScanQuery ts key)
    { p.1 with queries := p.1.queries ++ [p.2] }

/-- `queryComponents` / `getQuery` (lines 679-686, 941-943): return the
memoized query unchanged if one exists for the key, else construct and
index a new one. -/
def EMState.getQuery (s : EMState) (ts : List QTerm) : EMState :=
  let key := queryKeyOfTerms ts
  if s.queries.any (fun q => q.key == key) then s
  else s.getQueryNew ts key

def EMState.drainPendingAux : Nat → EMState → Nat → EMState
  | 0, s, _ => s
  | Nat.succ fuel, s, r =>
    match (s.heapGet r).componentsToRemove with
    | [] => s
    | c :: rest =>
      let s1 := s.updEnt r (fun e => { e with componentsToRemove := rest })
      let i := jsIndexOf (s1.heapGet r).componentTypes c
      EMState.drainPendingAux fuel (s1.entityRemoveComponentSync r i) r

/-- The `while` loop of the second phase of `processDeferredRemoval`
(lines 875-879): pop the next pending component (from the array tail),
look up its index — possibly `-1` when the same type was enqueued twice,
in which case `splice(-1, 1)` removes the **last** attached type — and
remove it synchronously.  Each pop strictly shrinks the pending list and
nothing in the body grows it, so its length bounds the iterations. -/
def EMState.drainPending (s : EMState) (r : Nat) : EMState :=
  EMState.drainPendingAux (s.heapGet r).componentsToRemove.length s r

/-- `processDeferredRemoval` (lines 865-883): destroy every entity queued
in `entitiesToRemove` (looking its index up again), clear that queue,
then drain the pending component list of every entity queued in
`entitiesWithComponentsToRemove`, and clear that queue.  The loop bodies
do not modify the queues themselves, so folding over them is faithful to
the JS index-based iteration. -/
def EMState.processDeferredRemoval (s : EMState) : EMState :=
  let s1 := s.entitiesToRemove.foldl
    (fun s2 r => s2.removeEntitySync r (jsIndexOf s2.entities r)) s
  let s2 := { s1 with entitiesToRemove := [] }
  let s3 := s2.entitiesWithComponentsToRemove.foldl
    (fun s4 r => s4.drainPending r) s2
  { s3 with entitiesWithComponentsToRemove := [] }

/-- The state after the `EntityManager` constructor (lines 703-721): the
entity pool constructor retains a prototype `initialObject = new
Entity()` — consuming global id 0 and occupying heap slot 0 — which never
enters the free list. -/
def EMState.start : EMState :=
  { nextId := 1,
    heap := [freshEntity 0],
    entities := [], queries := [], entitiesToRemove := [],
    entitiesWithComponentsToRemove := [], free := [], poolCount := 0,
    events := [] }

/-- User-level operations on the store. -/
inductive Op where
  | createEntity
  | addComponent (r : Nat) (c : CompT)
  | removeComponent (r : Nat) (c : CompT) (forceRemove : Bool)
  | removeEntity (r : Nat) (forceRemove : Bool)
  | createQuery (ts : List QTerm)
  | processDeferred
deriving Repr, DecidableEq

/-- Apply one user-level operation.  The component and entity operations
go through the `Entity` handle (`entity.addComponent`,
`entity.removeComponent`, `entity.remove`, lines 438-450 and 526-528),
which dereferences `this._world`; on an entity whose world pointer is
null the call throws before mutating anything and the state is
unchanged. -/
def EMState.applyOp (s : EMState) : Op → EMState
  | Op.createEntity => s.createEntity
  | Op.addComponent r c =>
    if (s.heapGet r).worldAttached then s.entityAddComponent r c else s
  | Op.removeComponent r c f =>
    if (s.heapGet r).worldAttached then s.entityRemoveComponent r c f else s
  | Op.removeEntity r f =>
    if (s.heapGet r).worldAttached then s.removeEntity r f else s
  | Op.createQuery ts => s.getQuery ts
  | Op.processDeferred => s.processDeferredRemoval

def EMState.applyOps (s : EMState) (ops : List Op) : EMState :=
  ops.foldl EMState.applyOp s

instance : Inhabited Query :=
  ⟨{ key := "", components := [], notComponents := [], entities := [],
     reactive := false }⟩

/-! ### Basic facts about the query-index primitives -/

theorem jsIndexOf_beq_true_iff [BEq α] [LawfulBEq α] (l : List α) (a : α) :
    ((jsIndexOf l a == -1) = true) ↔ a ∉ l := by
  rw [beq_iff_eq]
  exact jsIndexOf_eq_neg_one_iff l a

theorem jsIndexOf_beq_false_iff [BEq α] [LawfulBEq α] (l : List α) (a : α) :
    ((jsIndexOf l a == -1) = false) ↔ a ∈ l := by
  rw [Bool.eq_false_iff, Ne, beq_iff_eq]
  constructor
  · intro h
    by_contra hm
    exact h ((jsIndexOf_eq_neg_one_iff l a).mpr hm)
  · intro hm hc
    exact absurd hm ((jsIndexOf_eq_neg_one_iff l a).mp hc).elim

/-- `Query.match` characterized by membership: all positive components
owned and no `Not` component owned. -/
theorem matchTypes_iff (q : Query) (tys : List CompT) :
    q.matchTypes tys = true ↔
      ((∀ c ∈ q.components, c ∈ tys) ∧ (∀ c ∈ q.notComponents, c ∉ tys)) := by
  unfold Query.matchTypes
  rw [Bool.and_eq_true, List.all_eq_true, List.all_eq_true]
  constructor
  · rintro ⟨h1, h2⟩
    constructor
    · intro c hc
      have := h1 c hc
      rw [Bool.not_eq_true'] at this
      exact (jsIndexOf_beq_false_iff tys c).mp this
    · intro c hc
      exact (jsIndexOf_beq_true_iff tys c).mp (h2 c hc)
  · rintro ⟨h1, h2⟩
    constructor
    · intro c hc
      rw [Bool.not_eq_true']
      exact (jsIndexOf_beq_false_iff tys c).mpr (h1 c hc)
    · intro c hc
      exact (jsIndexOf_beq_true_iff tys c).mpr (h2 c hc)

/-- The query-side effect of `Query.removeEntity`. -/
def Query.removeEntityQ (q : Query) (r : Nat) : Query :=
  match firstIdx q.entities r with
  | none => q
  | some i =>
    { q with entities := q.entities.take i ++ q.entities.drop (i + 1) }

/-- The query-side effect of `Query.addEntity`. -/
def Query.addEntityQ (q : Query) (r : Nat) : Query :=
  { q with entities := q.entities ++ [r] }

theorem removeEntityOp_fst (q : Query) (r : Nat) (e : Entity) :
    (q.removeEntityOp r e).1 = q.removeEntityQ r := by
  unfold Query.removeEntityOp Query.removeEntityQ
  cases firstIdx q.entities r <;> rfl

theorem addEntityOp_fst (q : Query) (r : Nat) (e : Entity) :
    (q.addEntityOp r e).1 = q.addEntityQ r := rfl

theorem removeEntityQ_entities (q : Query) (r : Nat) :
    (q.removeEntityQ r).entities = q.entities.erase r := by
  unfold Query.removeEntityQ
  cases h : firstIdx q.entities r with
  | none =>
    rw [List.erase_of_not_mem ((firstIdx_eq_none_iff q.entities r).mp h)]
  | some i =>
    simpa using (splice_firstIdx_eq_erase q.entities r i h)

theorem removeEntityQ_key (q : Query) (r : Nat) :
    (q.removeEntityQ r).key = q.key := by
  unfold Query.removeEntityQ
  cases firstIdx q.entities r <;> rfl

theorem removeEntityQ_components (q : Query) (r : Nat) :
    (q.removeEntityQ r).components = q.components ∧
    (q.removeEntityQ r).notComponents = q.notComponents := by
  unfold Query.removeEntityQ
  cases firstIdx q.entities r <;> exact ⟨rfl, rfl⟩

/-- The query-index mutations touch only the entity's back-reference
list: all other `Entity` fields survive. -/
def entSameCore (e1 e2 : Entity) : Prop :=
  e2.eid = e1.eid ∧ e2.worldAttached = e1.worldAttached ∧
  e2.componentTypes = e1.componentTypes ∧
  e2.componentsToRemove = e1.componentsToRemove

theorem entSameCore_refl (e : Entity) : entSameCore e e :=
  ⟨rfl, rfl, rfl, rfl⟩

theorem entSameCore_trans {e1 e2 e3 : Entity} (h1 : entSameCore e1 e2)
    (h2 : entSameCore e2 e3) : entSameCore e1 e3 :=
  ⟨h2.1.trans h1.1, h2.2.1.trans h1.2.1, h2.2.2.1.trans h1.2.2.1,
   h2.2.2.2.trans h1.2.2.2⟩

theorem removeEntityOp_snd_core (q : Query) (r : Nat) (e : Entity) :
    entSameCore e (q.removeEntityOp r e).2 := by
  unfold Query.removeEntityOp
  cases firstIdx q.entities r <;> exact ⟨rfl, rfl, rfl, rfl⟩

theorem addEntityOp_snd_core (q : Query) (r : Nat) (e : Entity) :
    entSameCore e (q.addEntityOp r e).2 :=
  ⟨rfl, rfl, rfl, rfl⟩

/-! ### Decomposition of the query-index loops

During each loop the threaded entity only changes in its back-reference
list, and the guards of the component-add / component-remove loops read
only the query and the entity's `_ComponentTypes`; hence the resulting
query list is a `map` of a per-query step function of those types. -/

/-- Per-query effect of `onEntityComponentAdded`. -/
def qmAddedStep (r : Nat) (c : CompT) (tys : List CompT) (q : Query) : Query :=
  if !(jsIndexOf q.notComponents c == -1) && !(jsIndexOf q.entities r == -1) then
    q.removeEntityQ r
  else if jsIndexOf q.components c == -1 || !(q.matchTypes tys) ||
      !(jsIndexOf q.entities r == -1) then q
  else q.addEntityQ r

/-- Per-query effect of `onEntityComponentRemoved`. -/
def qmRemovedStep (r : Nat) (c : CompT) (tys : List CompT) (q : Query) : Query :=
  if !(jsIndexOf q.notComponents c == -1) && (jsIndexOf q.entities r == -1) then
    q.addEntityQ r
  else if jsIndexOf q.components c == -1 then q
  else if !(q.matchTypes tys) then q
  else q.removeEntityQ r

theorem qmAddedLoop_spec (r : Nat) (c : CompT) :
    ∀ (qs : List Query) (e : Entity),
      (qmAddedLoop r c e qs).1 = qs.map (qmAddedStep r c e.componentTypes) ∧
      entSameCore e (qmAddedLoop r c e qs).2 := by
  intro qs
  induction qs with
  | nil => intro e; exact ⟨rfl, entSameCore_refl e⟩
  | cons q rest ih =>
    intro e
    by_cases g1 : (!(jsIndexOf q.notComponents c == -1) &&
        !(jsIndexOf q.entities r == -1)) = true
    · have hcore := removeEntityOp_snd_core q r e
      have ihh := ih (q.removeEntityOp r e).2
      constructor
      · show (qmAddedLoop r c e (q :: rest)).1 = _
        unfold qmAddedLoop
        rw [if_pos g1]
        show (q.removeEntityOp r e).1 ::
            (qmAddedLoop r c (q.removeEntityOp r e).2 rest).1 = _
        rw [removeEntityOp_fst, ihh.1, hcore.2.2.1, List.map_cons]
        unfold qmAddedStep
        rw [if_pos g1]
      · show entSameCore e (qmAddedLoop r c e (q :: rest)).2
        unfold qmAddedLoop
        rw [if_pos g1]
        exact entSameCore_trans hcore ihh.2
    · by_cases g2 : (jsIndexOf q.components c == -1 || !(q.matchE e) ||
          !(jsIndexOf q.entities r == -1)) = true
      · have g2' : (jsIndexOf q.components c == -1 ||
            !(q.matchTypes e.componentTypes) ||
            !(jsIndexOf q.entities r == -1)) = true := g2
        have ihh := ih e
        constructor
        · show (qmAddedLoop r c e (q :: rest)).1 = _
          unfold qmAddedLoop
          rw [if_neg (by simp [g1]), if_pos g2]
          show q :: (qmAddedLoop r c e rest).1 = _
          rw [ihh.1, List.map_cons]
          unfold qmAddedStep
          rw [if_neg (by simp [g1]), if_pos g2']
        · show entSameCore e (qmAddedLoop r c e (q :: rest)).2
          unfold qmAddedLoop
          rw [if_neg (by simp [g1]), if_pos g2]
          exact ihh.2
      · have g2' : ¬ (jsIndexOf q.components c == -1 ||
            !(q.matchTypes e.componentTypes) ||
            !(jsIndexOf q.entities r == -1)) = true := g2
        have hcore := addEntityOp_snd_core q r e
        have ihh := ih (q.addEntityOp r e).2
        constructor
        · show (qmAddedLoop r c e (q :: rest)).1 = _
          unfold qmAddedLoop
          rw [if_neg (by simp [g1]), if_neg g2]
          show (q.addEntityOp r e).1 ::
              (qmAddedLoop r c (q.addEntityOp r e).2 rest).1 = _
          rw [addEntityOp_fst, ihh.1, hcore.2.2.1, List.map_cons]
          unfold qmAddedStep
          rw [if_neg (by simp [g1]), if_neg g2']
        · show entSameCore e (qmAddedLoop r c e (q :: rest)).2
          unfold qmAddedLoop
          rw [if_neg (by simp [g1]), if_neg g2]
          exact entSameCore_trans hcore ihh.2

theorem qmRemovedLoop_spec (r : Nat) (c : CompT) :
    ∀ (qs : List Query) (e : Entity),
      (qmRemovedLoop r c e qs).1 = qs.map (qmRemovedStep r c e.componentTypes) ∧
      entSameCore e (qmRemovedLoop r c e qs).2 := by
  intro qs
  induction qs with
  | nil => intro e; exact ⟨rfl, entSameCore_refl e⟩
  | cons q rest ih =>
    intro e
    by_cases g1 : (!(jsIndexOf q.notComponents c == -1) &&
        (jsIndexOf q.entities r == -1)) = true
    · have hcore := addEntityOp_snd_core q r e
      have ihh := ih (q.addEntityOp r e).2
      constructor
      · show (qmRemovedLoop r c e (q :: rest)).1 = _
        unfold qmRemovedLoop
        rw [if_pos g1]
        show (q.addEntityOp r e).1 ::
            (qmRemovedLoop r c (q.addEntityOp r e).2 rest).1 = _
        rw [addEntityOp_fst, ihh.1, hcore.2.2.1, List.map_cons]
        unfold qmRemovedStep
        rw [if_pos g1]
      · show entSameCore e (qmRemovedLoop r c e (q :: rest)).2
        unfold qmRemovedLoop
        rw [if_pos g1]
        exact entSameCore_trans hcore ihh.2
    · by_cases g2 : (jsIndexOf q.components c == -1) = true
      · have ihh := ih e
        constructor
        · show (qmRemovedLoop r c e (q :: rest)).1 = _
          unfold qmRemovedLoop
          rw [if_neg (by simp [g1]), if_pos g2]
          show q :: (qmRemovedLoop r c e rest).1 = _
          rw [ihh.1, List.map_cons]
          unfold qmRemovedStep
          rw [if_neg (by simp [g1]), if_pos g2]
        · show entSameCore e (qmRemovedLoop r c e (q :: rest)).2
          unfold qmRemovedLoop
          rw [if_neg (by simp [g1]), if_pos g2]
          exact ihh.2
      · by_cases g3 : (!(q.matchE e)) = true
        · have g3' : (!(q.matchTypes e.componentTypes)) = true := g3
          have ihh := ih e
          constructor
          · show (qmRemovedLoop r c e (q :: rest)).1 = _
            unfold qmRemovedLoop
            rw [if_neg (by simp [g1]), if_neg (by simp [g2]), if_pos g3]
            show q :: (qmRemovedLoop r c e rest).1 = _
            rw [ihh.1, List.map_cons]
            unfold qmRemovedStep
            rw [if_neg (by simp [g1]), if_neg (by simp [g2]), if_pos g3']
          · show entSameCore e (qmRemovedLoop r c e (q :: rest)).2
            unfold qmRemovedLoop
            rw [if_neg (by simp [g1]), if_neg (by simp [g2]), if_pos g3]
            exact ihh.2
        · have g3' : ¬ (!(q.matchTypes e.componentTypes)) = true := g3
          have hcore := removeEntityOp_snd_core q r e
          have ihh := ih (q.removeEntityOp r e).2
          constructor
          · show (qmRemovedLoop r c e (q :: rest)).1 = _
            unfold qmRemovedLoop
            rw [if_neg (by simp [g1]), if_neg (by simp [g2]), if_neg g3]
            show (q.removeEntityOp r e).1 ::
                (qmRemovedLoop r c (q.removeEntityOp r e).2 rest).1 = _
            rw [removeEntityOp_fst, ihh.1, hcore.2.2.1, List.map_cons]
            unfold qmRemovedStep
            rw [if_neg (by simp [g1]), if_neg (by simp [g2]), if_neg g3']
          · show entSameCore e (qmRemovedLoop r c e (q :: rest)).2
            unfold qmRemovedLoop
            rw [if_neg (by simp [g1]), if_neg (by simp [g2]), if_neg g3]
            exact entSameCore_trans hcore ihh.2

/-- The entity-removed loop leaves every query either unchanged or with
exactly the entity `r` erased, and only touches the entity's
back-references. -/
theorem qmEntityRemovedLoop_spec (r : Nat) :
    ∀ (qs : List Query) (e : Entity),
      List.Forall₂ (fun q q2 => q2 = q ∨ q2 = q.removeEntityQ r) qs
        (qmEntityRemovedLoop r e qs).1 ∧
      entSameCore e (qmEntityRemovedLoop r e qs).2 := by
  intro qs
  induction qs with
  | nil => intro e; exact ⟨List.Forall₂.nil, entSameCore_refl e⟩
  | cons q rest ih =>
    intro e
    by_cases g : (!(jsIndexOf e.queriesKeys q.key == -1)) = true
    · have hcore := removeEntityOp_snd_core q r e
      have ihh := ih (q.removeEntityOp r e).2
      constructor
      · show List.Forall₂ _ _ (qmEntityRemovedLoop r e (q :: rest)).1
        unfold qmEntityRemovedLoop
        rw [if_pos g]
        exact List.Forall₂.cons (Or.inr (removeEntityOp_fst q r e)) ihh.1
      · show entSameCore e (qmEntityRemovedLoop r e (q :: rest)).2
        unfold qmEntityRemovedLoop
        rw [if_pos g]
        exact entSameCore_trans hcore ihh.2
    · have ihh := ih e
      constructor
      · show List.Forall₂ _ _ (qmEntityRemovedLoop r e (q :: rest)).1
        unfold qmEntityRemovedLoop
        rw [if_neg (by simp_all)]
        exact List.Forall₂.cons (Or.inl rfl) ihh.1
      · show entSameCore e (qmEntityRemovedLoop r e (q :: rest)).2
        unfold qmEntityRemovedLoop
        rw [if_neg (by simp_all)]
        exact ihh.2

/-! ### State-level facts about `updEnt` and the query-index callbacks -/

theorem heapGet_updEnt_self (s : EMState) (r : Nat) (f : Entity → Entity)
    (hr : r < s.heap.length) :
    (s.updEnt r f).heapGet r = f (s.heapGet r) := by
  unfold EMState.updEnt EMState.heapGet
  simp only [List.getD, List.get?_eq_getElem?]
  rw [List.getElem?_set_self]
  · simp
  · exact hr

theorem heapGet_updEnt_ne (s : EMState) (r : Nat) (f : Entity → Entity)
    (r2 : Nat) (h : r2 ≠ r) :
    (s.updEnt r f).heapGet r2 = s.heapGet r2 := by
  unfold EMState.updEnt EMState.heapGet
  simp only [List.getD, List.get?_eq_getElem?]
  rw [List.getElem?_set_ne (fun hc => h hc.symm)]

theorem heapGet_updEnt_core (s : EMState) (r : Nat) (f : Entity → Entity)
    (hf : ∀ e, entSameCore e (f e)) (r2 : Nat) :
    entSameCore (s.heapGet r2) ((s.updEnt r f).heapGet r2) := by
  by_cases hr2 : r2 = r
  · subst hr2
    by_cases hr : r2 < s.heap.length
    · rw [heapGet_updEnt_self s r2 f hr]
      exact hf _
    · unfold EMState.updEnt EMState.heapGet
      rw [List.set_eq_of_length_le (by omega)]
      exact entSameCore_refl _
  · rw [heapGet_updEnt_ne s r f r2 hr2]
    exact entSameCore_refl _

theorem updEnt_length (s : EMState) (r : Nat) (f : Entity → Entity) :
    (s.updEnt r f).heap.length = s.heap.length := by
  unfold EMState.updEnt
  simp

theorem updEnt_entities (s : EMState) (r : Nat) (f : Entity → Entity) :
    (s.updEnt r f).entities = s.entities := rfl

theorem updEnt_queries (s : EMState) (r : Nat) (f : Entity → Entity) :
    (s.updEnt r f).queries = s.queries := rfl

theorem updEnt_events (s : EMState) (r : Nat) (f : Entity → Entity) :
    (s.updEnt r f).events = s.events := rfl

theorem updEnt_free (s : EMState) (r : Nat) (f : Entity → Entity) :
    (s.updEnt r f).free = s.free := rfl

theorem updEnt_toRemove (s : EMState) (r : Nat) (f : Entity → Entity) :
    (s.updEnt r f).entitiesToRemove = s.entitiesToRemove := rfl

theorem updEnt_withComps (s : EMState) (r : Nat) (f : Entity → Entity) :
    (s.updEnt r f).entitiesWithComponentsToRemove =
      s.entitiesWithComponentsToRemove := rfl

theorem qmOnAdded_queries (s : EMState) (r : Nat) (c : CompT) :
    (s.qmOnEntityComponentAdded r c).queries =
      s.queries.map (qmAddedStep r c (s.heapGet r).componentTypes) := by
  unfold EMState.qmOnEntityComponentAdded
  rw [updEnt_queries]
  exact (qmAddedLoop_spec r c s.queries (s.heapGet r)).1

theorem qmOnRemoved_queries (s : EMState) (r : Nat) (c : CompT) :
    (s.qmOnEntityComponentRemoved r c).queries =
      s.queries.map (qmRemovedStep r c (s.heapGet r).componentTypes) := by
  unfold EMState.qmOnEntityComponentRemoved
  rw [updEnt_queries]
  exact (qmRemovedLoop_spec r c s.queries (s.heapGet r)).1

theorem qmOnEntityRemoved_queries (s : EMState) (r : Nat) :
    List.Forall₂ (fun q q2 => q2 = q ∨ q2 = q.removeEntityQ r) s.queries
      (s.qmOnEntityRemoved r).queries := by
  unfold EMState.qmOnEntityRemoved
  rw [updEnt_queries]
  exact (qmEntityRemovedLoop_spec r s.queries (s.heapGet r)).1

theorem heapGet_updEnt_const_core (s : EMState) (r : Nat) (e2 : Entity)
    (hcore : entSameCore (s.heapGet r) e2) (r2 : Nat) :
    entSameCore (s.heapGet r2) ((s.updEnt r (fun _ => e2)).heapGet r2) := by
  by_cases hr2 : r2 = r
  · subst hr2
    by_cases hr : r2 < s.heap.length
    · rw [heapGet_updEnt_self s r2 _ hr]
      exact hcore
    · unfold EMState.updEnt EMState.heapGet
      rw [List.set_eq_of_length_le (by omega)]
      exact entSameCore_refl _
  · rw [heapGet_updEnt_ne s r _ r2 hr2]
    exact entSameCore_refl _

theorem qmOnAdded_heapGet_core (s : EMState) (r : Nat) (c : CompT) (r2 : Nat) :
    entSameCore (s.heapGet r2)
      ((s.qmOnEntityComponentAdded r c).heapGet r2) :=
  heapGet_updEnt_const_core
    { s with queries := (qmAddedLoop r c (s.heapGet r) s.queries).1 } r _
    ((qmAddedLoop_spec r c s.queries (s.heapGet r)).2) r2

theorem qmOnRemoved_heapGet_core (s : EMState) (r : Nat) (c : CompT) (r2 : Nat) :
    entSameCore (s.heapGet r2)
      ((s.qmOnEntityComponentRemoved r c).heapGet r2) :=
  heapGet_updEnt_const_core
    { s with queries := (qmRemovedLoop r c (s.heapGet r) s.queries).1 } r _
    ((qmRemovedLoop_spec r c s.queries (s.heapGet r)).2) r2

theorem qmOnEntityRemoved_heapGet_core (s : EMState) (r : Nat) (r2 : Nat) :
    entSameCore (s.heapGet r2) ((s.qmOnEntityRemoved r).heapGet r2) :=
  heapGet_updEnt_const_core
    { s with queries := (qmEntityRemovedLoop r (s.heapGet r) s.queries).1 } r _
    ((qmEntityRemovedLoop_spec r s.queries (s.heapGet r)).2) r2

theorem qmOnAdded_length (s : EMState) (r : Nat) (c : CompT) :
    (s.qmOnEntityComponentAdded r c).heap.length = s.heap.length := by
  unfold EMState.qmOnEntityComponentAdded
  rw [updEnt_length]

theorem qmOnRemoved_length (s : EMState) (r : Nat) (c : CompT) :
    (s.qmOnEntityComponentRemoved r c).heap.length = s.heap.length := by
  unfold EMState.qmOnEntityComponentRemoved
  rw [updEnt_length]

theorem qmOnEntityRemoved_length (s : EMState) (r : Nat) :
    (s.qmOnEntityRemoved r).heap.length = s.heap.length := by
  unfold EMState.qmOnEntityRemoved
  rw [updEnt_length]

theorem qmOnAdded_entities (s : EMState) (r : Nat) (c : CompT) :
    (s.qmOnEntityComponentAdded r c).entities = s.entities := rfl

theorem qmOnAdded_events (s : EMState) (r : Nat) (c : CompT) :
    (s.qmOnEntityComponentAdded r c).events = s.events := rfl

theorem qmOnAdded_free (s : EMState) (r : Nat) (c : CompT) :
    (s.qmOnEntityComponentAdded r c).free = s.free := rfl

theorem qmOnAdded_toRemove (s : EMState) (r : Nat) (c : CompT) :
    (s.qmOnEntityComponentAdded r c).entitiesToRemove = s.entitiesToRemove := rfl

theorem qmOnAdded_withComps (s : EMState) (r : Nat) (c : CompT) :
    (s.qmOnEntityComponentAdded r c).entitiesWithComponentsToRemove =
      s.entitiesWithComponentsToRemove := rfl

theorem qmOnRemoved_entities (s : EMState) (r : Nat) (c : CompT) :
    (s.qmOnEntityComponentRemoved r c).entities = s.entities := rfl

theorem qmOnRemoved_events (s : EMState) (r : Nat) (c : CompT) :
    (s.qmOnEntityComponentRemoved r c).events = s.events := rfl

theorem qmOnRemoved_free (s : EMState) (r : Nat) (c : CompT) :
    (s.qmOnEntityComponentRemoved r c).free = s.free := rfl

theorem qmOnRemoved_toRemove (s : EMState) (r : Nat) (c : CompT) :
    (s.qmOnEntityComponentRemoved r c).entitiesToRemove =
      s.entitiesToRemove := rfl

theorem qmOnRemoved_withComps (s : EMState) (r : Nat) (c : CompT) :
    (s.qmOnEntityComponentRemoved r c).entitiesWithComponentsToRemove =
      s.entitiesWithComponentsToRemove := rfl

theorem qmOnEntityRemoved_entities (s : EMState) (r : Nat) :
    (s.qmOnEntityRemoved r).entities = s.entities := rfl

theorem qmOnEntityRemoved_events (s : EMState) (r : Nat) :
    (s.qmOnEntityRemoved r).events = s.events := rfl

theorem qmOnEntityRemoved_free (s : EMState) (r : Nat) :
    (s.qmOnEntityRemoved r).free = s.free := rfl

theorem qmOnEntityRemoved_toRemove (s : EMState) (r : Nat) :
    (s.qmOnEntityRemoved r).entitiesToRemove = s.entitiesToRemove := rfl

theorem qmOnEntityRemoved_withComps (s : EMState) (r : Nat) :
    (s.qmOnEntityRemoved r).entitiesWithComponentsToRemove =
      s.entitiesWithComponentsToRemove := rfl

/-! ### Deferred component removal (C10) -/

/-- The deferred tail of `entityRemoveComponent` (lines 787-791), on the
state reached after the event dispatch and the query-index update. -/
def EMState.deferStep (s2 : EMState) (r : Nat) (c : CompT) : EMState :=
  let s3 := if (s2.heapGet r).componentsToRemove.length == 0 then
      { s2 with entitiesWithComponentsToRemove :=
          s2.entitiesWithComponentsToRemove ++ [r] }
    else s2
  s3.updEnt r
    (fun e => { e with componentsToRemove := c :: e.componentsToRemove })

/-- Unfolding `entityRemoveComponent` with `forceRemove = false`. -/
theorem entityRemoveComponent_false_eq (s : EMState) (r : Nat) (c : CompT) :
    s.entityRemoveComponent r c false =
      (if (jsIndexOf (s.heapGet r).componentTypes c == -1) = true then s
       else EMState.deferStep
         (EMState.qmOnEntityComponentRemoved
           { s with events := s.events ++ [EMEvent.componentRemove r c] }
           r c) r c) := rfl

theorem deferStep_spec (s2 : EMState) (r : Nat) (c : CompT)
    (hr : r < s2.heap.length) :
    (EMState.deferStep s2 r c).events = s2.events ∧
    ((EMState.deferStep s2 r c).heapGet r).componentsToRemove =
      c :: (s2.heapGet r).componentsToRemove ∧
    ((EMState.deferStep s2 r c).heapGet r).componentTypes =
      (s2.heapGet r).componentTypes ∧
    ((EMState.deferStep s2 r c).heapGet r).worldAttached =
      (s2.heapGet r).worldAttached ∧
    (EMState.deferStep s2 r c).heap.length = s2.heap.length := by
  unfold EMState.deferStep
  by_cases hq : ((s2.heapGet r).componentsToRemove.length == 0) = true
  · rw [if_pos hq]
    have hmid : ({ s2 with entitiesWithComponentsToRemove :=
        s2.entitiesWithComponentsToRemove ++ [r] } : EMState).heapGet r =
        s2.heapGet r := rfl
    have hlen : ({ s2 with entitiesWithComponentsToRemove :=
        s2.entitiesWithComponentsToRemove ++ [r] } : EMState).heap.length =
        s2.heap.length := rfl
    rw [updEnt_events, heapGet_updEnt_self _ r _ (by rw [hlen]; exact hr),
      updEnt_length, hmid, hlen]
    exact ⟨rfl, rfl, rfl, rfl, rfl⟩
  · rw [if_neg hq]
    rw [updEnt_events, heapGet_updEnt_self _ r _ hr, updEnt_length]
    exact ⟨rfl, rfl, rfl, rfl, rfl⟩

theorem entityRemoveComponent_deferred_spec (s : EMState) (r : Nat)
    (c : CompT) (hr : r < s.heap.length)
    (hOwn : c ∈ (s.heapGet r).componentTypes) :
    (s.entityRemoveComponent r c false).events =
      s.events ++ [EMEvent.componentRemove r c] ∧
    ((s.entityRemoveComponent r c false).heapGet r).componentsToRemove =
      c :: (s.heapGet r).componentsToRemove ∧
    ((s.entityRemoveComponent r c false).heapGet r).componentTypes =
      (s.heapGet r).componentTypes ∧
    ((s.entityRemoveComponent r c false).heapGet r).worldAttached =
      (s.heapGet r).worldAttached ∧
    (s.entityRemoveComponent r c false).heap.length = s.heap.length := by
  have hguard : ¬ ((jsIndexOf (s.heapGet r).componentTypes c == -1) = true) := by
    rw [jsIndexOf_beq_true_iff]
    exact fun h => h hOwn
  have hs1get : ({ s with events := s.events ++ [EMEvent.componentRemove r c] }
      : EMState).heapGet r = s.heapGet r := rfl
  have hcore : entSameCore (s.heapGet r)
      ((EMState.qmOnEntityComponentRemoved
        { s with events := s.events ++ [EMEvent.componentRemove r c] }
        r c).heapGet r) := by
    have h := qmOnRemoved_heapGet_core
      { s with events := s.events ++ [EMEvent.componentRemove r c] } r c r
    rw [hs1get] at h
    exact h
  have hlen2 : (EMState.qmOnEntityComponentRemoved
      { s with events := s.events ++ [EMEvent.componentRemove r c] }
      r c).heap.length = s.heap.length := by
    rw [qmOnRemoved_length]
  have hev2 : (EMState.qmOnEntityComponentRemoved
      { s with events := s.events ++ [EMEvent.componentRemove r c] }
      r c).events = s.events ++ [EMEvent.componentRemove r c] := by
    rw [qmOnRemoved_events]
  have hds := deferStep_spec
    (EMState.qmOnEntityComponentRemoved
      { s with events := s.events ++ [EMEvent.componentRemove r c] } r c)
    r c (by rw [hlen2]; exact hr)
  rw [entityRemoveComponent_false_eq, if_neg hguard]
  refine ⟨?_, ?_, ?_, ?_, ?_⟩
  · rw [hds.1, hev2]
  · rw [hds.2.1, hcore.2.2.2]
  · rw [hds.2.2.1, hcore.2.2.1]
  · rw [hds.2.2.2.1, hcore.2.1]
  · rw [hds.2.2.2.2, hlen2]

/-- C10: deferred component removal is not idempotent.  For an entity
that owns type `c`, a second `removeComponent(entity, c, false)` before
`processDeferred` is not an unknown-component no-op: the ownership guard
still sees `c` attached, so the `COMPONENT_REMOVE` event fires a second
time and `c` is enqueued a second time in the entity's pending-removal
list. -/
theorem deferred_remove_component_not_idempotent (s : EMState) (r : Nat)
    (c : CompT) (hr : r < s.heap.length)
    (hAtt : (s.heapGet r).worldAttached = true)
    (hOwn : c ∈ (s.heapGet r).componentTypes) :
    ((s.applyOp (Op.removeComponent r c false)).applyOp
        (Op.removeComponent r c false)).events =
      s.events ++ [EMEvent.componentRemove r c, EMEvent.componentRemove r c] ∧
    (((s.applyOp (Op.removeComponent r c false)).applyOp
        (Op.removeComponent r c false)).heapGet r).componentsToRemove =
      c :: c :: (s.heapGet r).componentsToRemove := by
  have h1 := entityRemoveComponent_deferred_spec s r c hr hOwn
  have hstep1 : s.applyOp (Op.removeComponent r c false) =
      s.entityRemoveComponent r c false := by
    simp only [EMState.applyOp]
    rw [if_pos hAtt]
  have hAtt2 : ((s.entityRemoveComponent r c false).heapGet r).worldAttached
      = true := by
    rw [h1.2.2.2.1]
    exact hAtt
  have hOwn2 : c ∈ ((s.entityRemoveComponent r c false).heapGet r).componentTypes := by
    rw [h1.2.2.1]
    exact hOwn
  have hr2 : r < (s.entityRemoveComponent r c false).heap.length := by
    rw [h1.2.2.2.2]
    exact hr
  have h2 := entityRemoveComponent_deferred_spec
    (s.entityRemoveComponent r c false) r c hr2 hOwn2
  have hstep2 : (s.entityRemoveComponent r c false).applyOp
      (Op.removeComponent r c false) =
      (s.entityRemoveComponent r c false).entityRemoveComponent r c false := by
    simp only [EMState.applyOp]
    rw [if_pos hAtt2]
  rw [hstep1, hstep2]
  constructor
  · rw [h2.1, h1.1, List.append_assoc]
    rfl
  · rw [h2.2.1, h1.2.1]

/-- Witness for C10 at a concrete store: entity 1 owns type 7; two
deferred removals log two `COMPONENT_REMOVE` events and enqueue type 7
twice. -/
theorem deferred_remove_component_not_idempotent_witness :
    (((EMState.applyOps EMState.start
        [Op.createEntity, Op.addComponent 1 7]).applyOp
          (Op.removeComponent 1 7 false)).applyOp
          (Op.removeComponent 1 7 false)).events =
      (EMState.applyOps EMState.start
        [Op.createEntity, Op.addComponent 1 7]).events ++
        [EMEvent.componentRemove 1 7, EMEvent.componentRemove 1 7] ∧
    ((((EMState.applyOps EMState.start
        [Op.createEntity, Op.addComponent 1 7]).applyOp
          (Op.removeComponent 1 7 false)).applyOp
          (Op.removeComponent 1 7 false)).heapGet 1).componentsToRemove =
      7 :: 7 :: ((EMState.applyOps EMState.start
        [Op.createEntity, Op.addComponent 1 7]).heapGet 1).componentsToRemove :=
  deferred_remove_component_not_idempotent
    (EMState.applyOps EMState.start [Op.createEntity, Op.addComponent 1 7])
    1 7 (by decide) (by decide) (by decide)

/-! ### Concrete runs refuting the membership invariant (C1, C2) and the
deferred-removal safety claim (C3) -/

/-- Query `{0, Not 1}`, an entity owning only type 1, then a forced
removal of the forbidden type 1. -/
def c1CexOps : List Op :=
  [Op.createQuery [QTerm.plain 0, QTerm.notT 1], Op.createEntity,
   Op.addComponent 1 1, Op.removeComponent 1 1 true]

/-- Counterexample to C1 as stated: after the sequence
`createQuery {0, Not 1}; createEntity; addComponent(e, 1);
removeComponent(e, 1, force)` the store holds entity 1 with an empty
component-type set, yet the query (which requires type 0) lists entity 1:
`onEntityComponentRemoved` adds an entity on removal of a forbidden type
without re-checking `match`. -/
theorem query_membership_iff_cex :
    ¬ (∀ q ∈ (EMState.applyOps EMState.start c1CexOps).queries,
        ∀ r ∈ (EMState.applyOps EMState.start c1CexOps).entities,
          (r ∈ q.entities ↔
            q.matchE ((EMState.applyOps EMState.start c1CexOps).heapGet r)
              = true)) := by
  decide

/-- Query `{2, Not 3}`, an entity owning only type 3, forced removal of
type 3. -/
def c2FailOps : List Op :=
  [Op.createQuery [QTerm.plain 2, QTerm.notT 3], Op.createEntity,
   Op.addComponent 1 3, Op.removeComponent 1 3 true]

/-- C2 at the failing input: when the forbidden type 3 is removed from an
entity that never owned the required type 2, `onEntityComponentRemoved`
adds the entity to the query although the entity does not satisfy the
query after (or before) the removal. -/
theorem remove_forbidden_adds_without_match :
    1 ∈ ((EMState.applyOps EMState.start c2FailOps).queries.headD
        default).entities ∧
    ((EMState.applyOps EMState.start c2FailOps).queries.headD
        default).matchE
      ((EMState.applyOps EMState.start c2FailOps).heapGet 1) = false ∧
    ((EMState.applyOps EMState.start c2FailOps).heapGet 1).componentTypes
      = [] := by
  decide

/-- Query `{4, Not 5}`, an entity owning only type 5, deferred entity
removal. -/
def c3FailOps : List Op :=
  [Op.createQuery [QTerm.plain 4, QTerm.notT 5], Op.createEntity,
   Op.addComponent 1 5, Op.removeEntity 1 false]

/-- C3 at the failing input: between `removeEntity(e, false)` and
`processDeferred` entity 1 is indeed absent from the query and present in
the store; but during `processDeferred` the forced detach of the
forbidden type 5 re-adds the entity to the query, so after
`processDeferred` the (now pool-released) entity is still listed by the
query. -/
theorem removed_entity_reenters_query :
    (1 ∈ (EMState.applyOps EMState.start c3FailOps).entities ∧
     1 ∉ ((EMState.applyOps EMState.start c3FailOps).queries.headD
        default).entities) ∧
    (1 ∉ (EMState.applyOps EMState.start
        (c3FailOps ++ [Op.processDeferred])).entities ∧
     1 ∈ (EMState.applyOps EMState.start
        (c3FailOps ++ [Op.processDeferred])).free ∧
     1 ∈ ((EMState.applyOps EMState.start
        (c3FailOps ++ [Op.processDeferred])).queries.headD
          default).entities) := by
  decide

/-! ## Stats (src/unnamed/part_000 lines 83-100, 317-322, 691-697,
957-977, 1133-1141) -/

structure QueryStatsR where
  numComponents : Nat
  numEntities : Nat
deriving Repr, DecidableEq

/-- `Query.stats` (lines 317-322). -/
def Query.statsR (q : Query) : QueryStatsR :=
  { numComponents := q.components.length, numEntities := q.entities.length }

/-- `QueryManager.stats` (lines 691-697): stats of every indexed query,
keyed by its canonical key. -/
def queryManagerStats (queries : List Query) : List (String × QueryStatsR) :=
  queries.map fun q => (q.key, q.statsR)

structure PoolStatsR where
  used : Nat
  size : Nat
deriving Repr, DecidableEq

structure EMStats where
  numEntities : Nat
  numQueries : Nat
  queries : List (String × QueryStatsR)
  numComponentPool : Nat
  componentPool : List (String × PoolStatsR)
  dispatcherFired : Nat
  dispatcherHandled : Nat
deriving Repr, DecidableEq

/-- `EntityManager.stats` (lines 957-977).  The per-type component pools
live in the world's `ComponentManager` (`_componentPool`, keyed by the
component property name) and are passed in here; each contributes
`{ used: pool.totalUsed(), size: pool.count }`.  The dispatcher's
`stats.fired` counter equals the number of dispatches logged in
`events`; `stats.handled` is never incremented anywhere. -/
def EMState.statsR (s : EMState)
    (componentPools : List (String × ObjectPool)) : EMStats :=
  { numEntities := s.entities.length,
    numQueries := s.queries.length,
    queries := queryManagerStats s.queries,
    numComponentPool := componentPools.length,
    componentPool := componentPools.map
      (fun p => (p.1, { used := p.2.totalUsed, size := p.2.count })),
    dispatcherFired := s.events.length,
    dispatcherHandled := 0 }

structure SysStatsEntry where
  queries : List (String × QueryStatsR)
deriving Repr, DecidableEq

structure SMStats where
  numSystems : Nat
  systems : List (Nat × SysStatsEntry)
deriving Repr, DecidableEq

/-- `SystemManager.stats` (lines 83-100): `numSystems` plus one entry per
system.  The per-system loop iterates `system.ctx`, a field no code ever
assigns (the `System` constructor sets `_queries` and `queries`, lines
1196-1197, never `ctx`), so `for (var name in system.ctx)` iterates
`undefined` zero times and every entry is `{ queries: {} }`; note that no
`executeTime` is recorded in the entry either. -/
def systemManagerStats (systems : List SystemRec) : SMStats :=
  { numSystems := systems.length,
    systems := systems.map (fun sys => (sys.sid, { queries := [] })) }

structure WorldStats where
  entities : EMStats
  system : SMStats
deriving Repr, DecidableEq

/-- The `stats` object assembled by `World.stats` (lines 1134-1137) and
passed to `console.log` as JSON. -/
def worldStatsLogged (s : EMState)
    (componentPools : List (String × ObjectPool))
    (systems : List SystemRec) : WorldStats :=
  { entities := s.statsR componentPools,
    system := systemManagerStats systems }

/-- The return value of `World.stats` (lines 1133-1141): the body builds
`stats`, calls `console.log(JSON.stringify(stats, null, 2))` and falls
off the end without a `return` statement, so the call evaluates to
`undefined`. -/
def worldStatsReturn (s : EMState)
    (componentPools : List (String × ObjectPool))
    (systems : List SystemRec) : Option WorldStats :=
  none

/-- Counterexample to C7 at a concrete world (one registered query, one
registered system): `world.stats()` returns `undefined` rather than the
counter object, and the per-system entry of the object it logs holds an
empty query map (and no execute-time field exists in it at all). -/
theorem world_stats_cex :
    worldStatsReturn
      (EMState.applyOps EMState.start [Op.createQuery [QTerm.plain 0]]) []
      (SystemManager.registerAll [(1, 0)]) = none ∧
    (worldStatsLogged
      (EMState.applyOps EMState.start [Op.createQuery [QTerm.plain 0]]) []
      (SystemManager.registerAll [(1, 0)])).system.systems =
      [(1, { queries := [] })] ∧
    (worldStatsLogged
      (EMState.applyOps EMState.start [Op.createQuery [QTerm.plain 0]]) []
      (SystemManager.registerAll [(1, 0)])).entities.numQueries = 1 := by
  refine ⟨rfl, ?_, ?_⟩ <;> decide

/-- C7 amended: `world.stats()` assembles the nested counters and logs
them as JSON instead of returning them (the call evaluates to
`undefined`); the logged object carries per-query component and entity
counts, per-component-type pool size and used count, and the dispatcher
fired count (`handled` stays 0), while its per-system entries hold only
an always-empty query map with no execute time. -/
theorem world_stats_content (s : EMState)
    (pools : List (String × ObjectPool)) (systems : List SystemRec) :
    worldStatsReturn s pools systems = none ∧
    (worldStatsLogged s pools systems).entities.numEntities =
      s.entities.length ∧
    (worldStatsLogged s pools systems).entities.queries =
      s.queries.map (fun q =>
        (q.key, { numComponents := q.components.length,
                  numEntities := q.entities.length })) ∧
    (worldStatsLogged s pools systems).entities.numQueries =
      (worldStatsLogged s pools systems).entities.queries.length ∧
    (worldStatsLogged s pools systems).entities.componentPool =
      pools.map (fun p =>
        (p.1, { used := p.2.count - p.2.freeList.length,
                size := p.2.count })) ∧
    (worldStatsLogged s pools systems).entities.dispatcherFired =
      s.events.length ∧
    (worldStatsLogged s pools systems).entities.dispatcherHandled = 0 ∧
    (worldStatsLogged s pools systems).system.numSystems =
      systems.length ∧
    (worldStatsLogged s pools systems).system.systems =
      systems.map (fun sys => (sys.sid, { queries := [] })) := by
  refine ⟨rfl, rfl, rfl, ?_, rfl, rfl, rfl, rfl, rfl⟩
  show s.queries.length = (queryManagerStats s.queries).length
  unfold queryManagerStats
  rw [List.length_map]

/-! ## Membership completeness under forced operations (C1 amended)

The store invariant `Inv` below is preserved by every operation whose
removals are forced (`forceRemove = true`); its `complete` field is the
"if" direction of the C1 membership property: every stored entity
satisfying a query is in that query's entity list.  (The "only if"
direction is refuted by `query_membership_iff_cex`, and deferred
removals break even the "if" direction during the pending window, as the
query index is updated ahead of the actual detach.) -/

/-- Operations whose component/entity removals are forced. -/
def ForcedOp : Op → Bool
  | Op.removeComponent _ _ f => f
  | Op.removeEntity _ f => f
  | _ => true

/-- Store invariant: the reference lists are well formed (valid, duplicate
free, store and pool disjoint), no removal is pending, per-entity type
lists are duplicate free, every indexed query has a nonempty required
set, and query membership is complete. -/
structure Inv (s : EMState) : Prop where
  entsLt : ∀ r ∈ s.entities, r < s.heap.length
  nodupE : s.entities.Nodup
  freeLt : ∀ r ∈ s.free, r < s.heap.length
  nodupF : s.free.Nodup
  disjEF : ∀ r ∈ s.entities, r ∉ s.free
  pendE : s.entitiesToRemove = []
  pendC : s.entitiesWithComponentsToRemove = []
  pendCE : ∀ r, (s.heapGet r).componentsToRemove = []
  tysNodup : ∀ r, (s.heapGet r).componentTypes.Nodup
  qReq : ∀ q ∈ s.queries, q.components ≠ []
  complete : ∀ q ∈ s.queries, ∀ r ∈ s.entities,
    q.matchE (s.heapGet r) = true → r ∈ q.entities

theorem inv_start : Inv EMState.start := by
  refine ⟨?_, ?_, ?_, ?_, ?_, rfl, rfl, ?_, ?_, ?_, ?_⟩
  · intro r hr; simp [EMState.start] at hr
  · simp [EMState.start]
  · intro r hr; simp [EMState.start] at hr
  · simp [EMState.start]
  · intro r hr; simp [EMState.start] at hr
  · intro r
    match r with
    | 0 => rfl
    | Nat.succ n => rfl
  · intro r
    match r with
    | 0 => exact List.nodup_nil
    | Nat.succ n => exact List.nodup_nil
  · intro q hq; simp [EMState.start] at hq
  · intro q hq; simp [EMState.start] at hq

/-- A query with a nonempty required set never matches an entity with no
components. -/
theorem matchTypes_nil (q : Query) (hq : q.components ≠ []) :
    q.matchTypes [] = false := by
  by_contra h
  rw [Bool.not_eq_false] at h
  rcases (matchTypes_iff q []).mp h with ⟨h1, _⟩
  match hc : q.components with
  | [] => exact hq hc
  | c :: _ =>
    have := h1 c (by rw [hc]; exact List.mem_cons_self c _)
    simp at this

/-- `splice(indexOf(a), 1)` erases the first occurrence. -/
theorem jsSplice1_jsIndexOf (l : List α) [DecidableEq α] (a : α)
    (n : Nat) (h : firstIdx l a = some n) :
    jsSplice1 l (jsIndexOf l a) = l.erase a := by
  unfold jsIndexOf
  rw [h]
  unfold jsSplice1
  have h1 : ¬ ((n : Int) < 0) := by omega
  simp only [h1, if_false]
  have h2 : ((n : Int)).toNat = n := by omega
  rw [h2]
  exact splice_firstIdx_eq_erase l a n h

/-- If the element is present, `firstIdx` finds an index. -/
theorem firstIdx_isSome_of_mem [BEq α] [LawfulBEq α] {l : List α} {a : α}
    (h : a ∈ l) : ∃ n, firstIdx l a = some n := by
  cases hf : firstIdx l a with
  | none => exact absurd h ((firstIdx_eq_none_iff l a).mp hf)
  | some n => exact ⟨n, rfl⟩

/-- Fold preservation: a step function preserving a predicate preserves it
through `List.foldl`. -/
theorem foldl_preserve {β : Type _} (P : EMState → Prop)
    (f : EMState → β → EMState) (hf : ∀ s b, P s → P (f s b)) :
    ∀ (l : List β) (s : EMState), P s → P (l.foldl f s) := by
  intro l
  induction l with
  | nil => intro s h; exact h
  | cons b rest ih =>
    intro s h
    exact ih (f s b) (hf s b h)

/-- Changing only the event log preserves the invariant. -/
theorem inv_events_update (s : EMState) (x : List EMEvent) (h : Inv s) :
    Inv { s with events := x } :=
  ⟨h.entsLt, h.nodupE, h.freeLt, h.nodupF, h.disjEF, h.pendE, h.pendC,
   h.pendCE, h.tysNodup, h.qReq, h.complete⟩

/-- `updEnt` below an entity not in the store, with a mutation that keeps
the pending list and keeps type lists duplicate free, preserves the
invariant. -/
theorem inv_updEnt_outside (s : EMState) (r : Nat) (f : Entity → Entity)
    (h : Inv s) (hr : r ∉ s.entities)
    (hpend : ∀ e, (f e).componentsToRemove = e.componentsToRemove)
    (htys : ∀ e, e.componentTypes.Nodup → (f e).componentTypes.Nodup) :
    Inv (s.updEnt r f) := by
  have hget : ∀ r2, r2 ≠ r → (s.updEnt r f).heapGet r2 = s.heapGet r2 :=
    fun r2 h2 => heapGet_updEnt_ne s r f r2 h2
  have hgetr : ((s.updEnt r f).heapGet r).componentsToRemove =
      (s.heapGet r).componentsToRemove ∧
      ((s.updEnt r f).heapGet r).componentTypes.Nodup := by
    by_cases hlt : r < s.heap.length
    · rw [heapGet_updEnt_self s r f hlt]
      exact ⟨hpend _, htys _ (h.tysNodup r)⟩
    · unfold EMState.updEnt EMState.heapGet
      rw [List.set_eq_of_length_le (by omega)]
      exact ⟨rfl, h.tysNodup r⟩
  refine ⟨?_, h.nodupE, ?_, h.nodupF, h.disjEF, h.pendE, h.pendC, ?_, ?_,
    h.qReq, ?_⟩
  · intro r2 h2
    rw [updEnt_length]
    exact h.entsLt r2 h2
  · intro r2 h2
    rw [updEnt_length]
    exact h.freeLt r2 h2
  · intro r2
    by_cases h2 : r2 = r
    · subst h2
      rw [hgetr.1]
      exact h.pendCE r2
    · rw [hget r2 h2]
      exact h.pendCE r2
  · intro r2
    by_cases h2 : r2 = r
    · subst h2
      exact hgetr.2
    · rw [hget r2 h2]
      exact h.tysNodup r2
  · intro q hq r2 h2 hm
    have hne : r2 ≠ r := fun hc => hr (hc ▸ h2)
    rw [hget r2 hne] at hm
    exact h.complete q hq r2 h2 hm

/-- `processDeferredRemoval` on a store with no pending removals is the
identity. -/
theorem processDeferred_of_empty (s : EMState)
    (h1 : s.entitiesToRemove = []) (h2 : s.entitiesWithComponentsToRemove = []) :
    s.processDeferredRemoval = s := by
  unfold EMState.processDeferredRemoval
  rw [h1]
  simp only [List.foldl_nil]
  have e1 : ({ s with entitiesToRemove := [] } : EMState) = s := by
    rw [← h1]
  rw [e1, h2]
  simp only [List.foldl_nil]
  rw [← h2]

theorem inv_processDeferred (s : EMState) (h : Inv s) :
    Inv s.processDeferredRemoval := by
  rw [processDeferred_of_empty s h.pendE h.pendC]
  exact h

/-! ### Query construction preserves the invariant -/

theorem matchTypes_congr (q1 q2 : Query) (tys : List CompT)
    (hc : q1.components = q2.components)
    (hn : q1.notComponents = q2.notComponents) :
    q1.matchTypes tys = q2.matchTypes tys := by
  unfold Query.matchTypes
  rw [hc, hn]

/-- Transport of the invariant along a state with the same reference
lists and an entity-core-preserving heap. -/
theorem inv_of_core (s s2 : EMState)
    (hents : s2.entities = s.entities) (hqs : s2.queries = s.queries)
    (hfree : s2.free = s.free)
    (htr : s2.entitiesToRemove = s.entitiesToRemove)
    (hwc : s2.entitiesWithComponentsToRemove =
      s.entitiesWithComponentsToRemove)
    (hlen : s2.heap.length = s.heap.length)
    (hcore : ∀ r, entSameCore (s.heapGet r) (s2.heapGet r))
    (h : Inv s) : Inv s2 := by
  refine ⟨?_, ?_, ?_, ?_, ?_, ?_, ?_, ?_, ?_, ?_, ?_⟩
  · intro r hr
    rw [hents] at hr
    rw [hlen]
    exact h.entsLt r hr
  · rw [hents]; exact h.nodupE
  · intro r hr
    rw [hfree] at hr
    rw [hlen]
    exact h.freeLt r hr
  · rw [hfree]; exact h.nodupF
  · intro r hr
    rw [hents] at hr
    rw [hfree]
    exact h.disjEF r hr
  · rw [htr]; exact h.pendE
  · rw [hwc]; exact h.pendC
  · intro r
    rw [(hcore r).2.2.2]
    exact h.pendCE r
  · intro r
    rw [(hcore r).2.2.1]
    exact h.tysNodup r
  · rw [hqs]; exact h.qReq
  · intro q hq r hr hm
    rw [hqs] at hq
    rw [hents] at hr
    have hm2 : q.matchE (s.heapGet r) = true := by
      unfold Query.matchE at hm ⊢
      rw [← (hcore r).2.2.1]
      exact hm
    exact h.complete q hq r hr hm2

/-- Appending a complete query with a nonempty required set preserves the
invariant. -/
theorem inv_append_query (s : EMState) (h : Inv s) (q : Query)
    (hcomp : q.components ≠ [])
    (hcompl : ∀ r ∈ s.entities,
      q.matchTypes ((s.heapGet r).componentTypes) = true →
        r ∈ q.entities) :
    Inv { s with queries := s.queries ++ [q] } := by
  refine ⟨h.entsLt, h.nodupE, h.freeLt, h.nodupF, h.disjEF, h.pendE,
    h.pendC, h.pendCE, h.tysNodup, ?_, ?_⟩
  · intro q2 hq2
    rcases List.mem_append.mp hq2 with hq2 | hq2
    · exact h.qReq q2 hq2
    · rw [List.mem_singleton.mp hq2]
      exact hcomp
  · intro q2 hq2 r hr hm
    rcases List.mem_append.mp hq2 with hq2 | hq2
    · exact h.complete q2 hq2 r hr hm
    · rw [List.mem_singleton.mp hq2] at hm ⊢
      exact hcompl r hr hm

/-- Facts about the constructor scan: the store keeps its reference lists
and entity cores, the query keeps its predicate fields, its entity list
only grows, and it picks up every scanned entity matching it. -/
theorem getQueryScan_spec (key : String) (ents : List Nat) :
    ∀ (s : EMState) (q : Query),
      (ents.foldl (getQueryScanStep key) (s, q)).1.entities = s.entities ∧
      (ents.foldl (getQueryScanStep key) (s, q)).1.queries = s.queries ∧
      (ents.foldl (getQueryScanStep key) (s, q)).1.free = s.free ∧
      (ents.foldl (getQueryScanStep key) (s, q)).1.entitiesToRemove =
        s.entitiesToRemove ∧
      (ents.foldl (getQueryScanStep key) (s, q)).1.entitiesWithComponentsToRemove =
        s.entitiesWithComponentsToRemove ∧
      (ents.foldl (getQueryScanStep key) (s, q)).1.heap.length =
        s.heap.length ∧
      (∀ r2, entSameCore (s.heapGet r2)
        ((ents.foldl (getQueryScanStep key) (s, q)).1.heapGet r2)) ∧
      (ents.foldl (getQueryScanStep key) (s, q)).2.components =
        q.components ∧
      (ents.foldl (getQueryScanStep key) (s, q)).2.notComponents =
        q.notComponents ∧
      (ents.foldl (getQueryScanStep key) (s, q)).2.key = q.key ∧
      (∀ x ∈ q.entities,
        x ∈ (ents.foldl (getQueryScanStep key) (s, q)).2.entities) ∧
      (∀ r2 ∈ ents,
        q.matchTypes ((s.heapGet r2).componentTypes) = true →
          r2 ∈ (ents.foldl (getQueryScanStep key) (s, q)).2.entities) := by
  induction ents with
  | nil =>
    intro s q
    refine ⟨rfl, rfl, rfl, rfl, rfl, rfl, fun r2 => entSameCore_refl _,
      rfl, rfl, rfl, fun x hx => hx, ?_⟩
    intro r2 hr2
    exact absurd hr2 (List.not_mem_nil r2)
  | cons r0 rest ih =>
    intro s q
    rw [List.foldl_cons]
    by_cases hg : (q.matchE (s.heapGet r0)) = true
    · have hstep : getQueryScanStep key (s, q) r0 =
          (s.updEnt r0
            (fun e => { e with queriesKeys := e.queriesKeys ++ [key] }),
           { q with entities := q.entities ++ [r0] }) := by
        unfold getQueryScanStep
        rw [if_pos hg]
      rw [hstep]
      have ihh := ih
        (s.updEnt r0 (fun e => { e with queriesKeys := e.queriesKeys ++ [key] }))
        { q with entities := q.entities ++ [r0] }
      have hcore0 : ∀ r2, entSameCore (s.heapGet r2)
          ((s.updEnt r0 (fun e =>
            { e with queriesKeys := e.queriesKeys ++ [key] })).heapGet r2) :=
        fun r2 => heapGet_updEnt_core s r0
          (fun e => { e with queriesKeys := e.queriesKeys ++ [key] })
          (fun e => ⟨rfl, rfl, rfl, rfl⟩) r2
      refine ⟨ihh.1, ihh.2.1, ihh.2.2.1, ihh.2.2.2.1, ihh.2.2.2.2.1, ?_,
        ?_, ihh.2.2.2.2.2.2.2.1, ihh.2.2.2.2.2.2.2.2.1,
        ihh.2.2.2.2.2.2.2.2.2.1, ?_, ?_⟩
      · rw [ihh.2.2.2.2.2.1, updEnt_length]
      · intro r2
        exact entSameCore_trans (hcore0 r2) (ihh.2.2.2.2.2.2.1 r2)
      · intro x hx
        exact ihh.2.2.2.2.2.2.2.2.2.2.1 x
          (List.mem_append.mpr (Or.inl hx))
      · intro r2 hr2 hm
        rcases List.mem_cons.mp hr2 with hr2 | hr2
        · subst hr2
          exact ihh.2.2.2.2.2.2.2.2.2.2.1 r2
            (List.mem_append.mpr (Or.inr (List.mem_singleton_self r2)))
        · have hmq : ∀ Z, ({ q with entities := q.entities ++ [r0] }
              : Query).matchTypes Z = q.matchTypes Z :=
            fun Z => matchTypes_congr _ _ Z rfl rfl
          have hm2 : ({ q with entities := q.entities ++ [r0] }
              : Query).matchTypes
              (((s.updEnt r0 (fun e =>
                { e with queriesKeys := e.queriesKeys ++ [key] })).heapGet
                r2).componentTypes) = true := by
            rw [hmq, (hcore0 r2).2.2.1]
            exact hm
          exact ihh.2.2.2.2.2.2.2.2.2.2.2 r2 hr2 hm2
    · have hstep : getQueryScanStep key (s, q) r0 = (s, q) := by
        unfold getQueryScanStep
        rw [if_neg hg]
      rw [hstep]
      have ihh := ih s q
      refine ⟨ihh.1, ihh.2.1, ihh.2.2.1, ihh.2.2.2.1, ihh.2.2.2.2.1,
        ihh.2.2.2.2.2.1, ihh.2.2.2.2.2.2.1, ihh.2.2.2.2.2.2.2.1,
        ihh.2.2.2.2.2.2.2.2.1, ihh.2.2.2.2.2.2.2.2.2.1,
        ihh.2.2.2.2.2.2.2.2.2.2.1, ?_⟩
      intro r2 hr2 hm
      rcases List.mem_cons.mp hr2 with hr2 | hr2
      · subst hr2
        exact absurd hm (by rw [Query.matchE] at hg; exact hg)
      · exact ihh.2.2.2.2.2.2.2.2.2.2.2 r2 hr2 hm

theorem inv_getQueryNew (s : EMState) (ts : List QTerm) (key : String)
    (h : Inv s) : Inv (s.getQueryNew ts key) := by
  unfold EMState.getQueryNew
  by_cases hg : ((qtermsPos ts).length == 0) = true
  · rw [if_pos hg]
    exact h
  · rw [if_neg hg]
    show Inv { (s.entities.foldl (getQueryScanStep key)
        (s, mkScanQuery ts key)).1 with
      queries := (s.entities.foldl (getQueryScanStep key)
        (s, mkScanQuery ts key)).1.queries ++
        [(s.entities.foldl (getQueryScanStep key)
          (s, mkScanQuery ts key)).2] }
    have hspec := getQueryScan_spec key s.entities s (mkScanQuery ts key)
    have hInv1 := inv_of_core s _ hspec.1 hspec.2.1 hspec.2.2.1
      hspec.2.2.2.1 hspec.2.2.2.2.1 hspec.2.2.2.2.2.1
      hspec.2.2.2.2.2.2.1 h
    refine inv_append_query _ hInv1 _ ?_ ?_
    · rw [hspec.2.2.2.2.2.2.2.1]
      show qtermsPos ts ≠ []
      intro hc
      rw [hc] at hg
      simp at hg
    · intro r hr hm
      rw [hspec.1] at hr
      have hmq : ∀ Z, (s.entities.foldl (getQueryScanStep key)
          (s, mkScanQuery ts key)).2.matchTypes Z =
          (mkScanQuery ts key).matchTypes Z :=
        fun Z => matchTypes_congr _ _ Z hspec.2.2.2.2.2.2.2.1
          hspec.2.2.2.2.2.2.2.2.1
      rw [hmq, (hspec.2.2.2.2.2.2.1 r).2.2.1] at hm
      exact hspec.2.2.2.2.2.2.2.2.2.2.2 r hr hm

theorem inv_getQuery (s : EMState) (ts : List QTerm) (h : Inv s) :
    Inv (s.getQuery ts) := by
  unfold EMState.getQuery
  by_cases hmem : (s.queries.any
      (fun q => q.key == queryKeyOfTerms ts)) = true
  · rw [if_pos hmem]
    exact h
  · rw [if_neg hmem]
    exact inv_getQueryNew s ts _ h

/-! ### `createEntity` preserves the invariant -/

theorem heapGet_append_one (s : EMState) (x : Entity) (r2 : Nat) :
    ({ s with heap := s.heap ++ [x] } : EMState).heapGet r2 =
      (if r2 < s.heap.length then s.heapGet r2
       else if r2 = s.heap.length then x else default) := by
  unfold EMState.heapGet
  simp only [List.getD, List.get?_eq_getElem?]
  rw [List.getElem?_append]
  by_cases h : r2 < s.heap.length
  · rw [if_pos h, if_pos h]
  · rw [if_neg h, if_neg h]
    by_cases h2 : r2 = s.heap.length
    · rw [if_pos h2, h2]
      simp
    · rw [if_neg h2]
      have h3 : 1 ≤ r2 - s.heap.length := by omega
      match h4 : r2 - s.heap.length with
      | 0 => omega
      | Nat.succ n => simp

theorem inv_nextId_update (s : EMState) (n : Nat) (h : Inv s) :
    Inv { s with nextId := n } :=
  ⟨h.entsLt, h.nodupE, h.freeLt, h.nodupF, h.disjEF, h.pendE, h.pendC,
   h.pendCE, h.tysNodup, h.qReq, h.complete⟩

theorem inv_poolCount_update (s : EMState) (n : Nat) (h : Inv s) :
    Inv { s with poolCount := n } :=
  ⟨h.entsLt, h.nodupE, h.freeLt, h.nodupF, h.disjEF, h.pendE, h.pendC,
   h.pendCE, h.tysNodup, h.qReq, h.complete⟩

theorem inv_expandStep (s : EMState) (h : Inv s) : Inv s.expandStep := by
  have hget : ∀ r2, s.expandStep.heapGet r2 =
      (if r2 < s.heap.length then s.heapGet r2
       else if r2 = s.heap.length then freshEntity s.nextId else default) :=
    fun r2 => heapGet_append_one s (freshEntity s.nextId) r2
  have hlen : s.expandStep.heap.length = s.heap.length + 1 := by
    unfold EMState.expandStep
    simp
  unfold EMState.expandStep at hget hlen ⊢
  refine ⟨?_, h.nodupE, ?_, ?_, ?_, h.pendE, h.pendC, ?_, ?_, h.qReq, ?_⟩
  · intro r hr
    rw [hlen]
    have := h.entsLt r hr
    omega
  · intro r hr
    rw [hlen]
    rcases List.mem_cons.mp hr with hr | hr
    · omega
    · have := h.freeLt r hr
      omega
  · refine List.nodup_cons.mpr ⟨?_, h.nodupF⟩
    intro hc
    have := h.freeLt _ hc
    omega
  · intro r hr
    have h1 := h.entsLt r hr
    have h2 := h.disjEF r hr
    intro hc
    rcases List.mem_cons.mp hc with hc | hc
    · omega
    · exact h2 hc
  · intro r
    rw [hget r]
    by_cases h1 : r < s.heap.length
    · rw [if_pos h1]; exact h.pendCE r
    · rw [if_neg h1]
      by_cases h2 : r = s.heap.length
      · rw [if_pos h2]; rfl
      · rw [if_neg h2]; rfl
  · intro r
    rw [hget r]
    by_cases h1 : r < s.heap.length
    · rw [if_pos h1]; exact h.tysNodup r
    · rw [if_neg h1]
      by_cases h2 : r = s.heap.length
      · rw [if_pos h2]; exact List.nodup_nil
      · rw [if_neg h2]; exact List.nodup_nil
  · intro q hq r hr hm
    rw [hget r, if_pos (h.entsLt r hr)] at hm
    exact h.complete q hq r hr hm

theorem inv_expandLoop : ∀ (k : Nat) (s : EMState), Inv s →
    Inv (EMState.expandLoop s k)
  | 0, _, h => h
  | Nat.succ k, s, h => inv_expandLoop k s.expandStep (inv_expandStep s h)

theorem inv_expandEntityPool (s : EMState) (k : Nat) (h : Inv s) :
    Inv (s.expandEntityPool k) :=
  inv_poolCount_update _ _ (inv_expandLoop k s h)

theorem inv_free_tail (s : EMState) (r : Nat) (rest : List Nat)
    (h : Inv s) (hfree : s.free = r :: rest) :
    Inv { s with free := rest } := by
  refine ⟨h.entsLt, h.nodupE, ?_, ?_, ?_, h.pendE, h.pendC, h.pendCE,
    h.tysNodup, h.qReq, h.complete⟩
  · intro r2 hr2
    exact h.freeLt r2 (by rw [hfree]; exact List.mem_cons_of_mem r hr2)
  · have := h.nodupF
    rw [hfree] at this
    exact (List.nodup_cons.mp this).2
  · intro r2 hr2 hc
    exact h.disjEF r2 hr2 (by rw [hfree]; exact List.mem_cons_of_mem r hc)

/-- Pushing on `_entities` an entity reference that is valid, not yet
stored, not in the pool free list, and not matching any indexed query,
preserves the invariant (the event log may change arbitrarily). -/
theorem inv_push_entity (s : EMState) (h : Inv s) (r : Nat)
    (hlt : r < s.heap.length) (hne : r ∉ s.entities) (hnf : r ∉ s.free)
    (hmatch : ∀ q ∈ s.queries, q.matchE (s.heapGet r) = false)
    (hEv : List EMEvent) :
    Inv { s with entities := s.entities ++ [r], events := hEv } := by
  refine ⟨?_, ?_, h.freeLt, h.nodupF, ?_, h.pendE, h.pendC, h.pendCE,
    h.tysNodup, h.qReq, ?_⟩
  · intro r2 hr2
    rcases List.mem_append.mp hr2 with hr2 | hr2
    · exact h.entsLt r2 hr2
    · rw [List.mem_singleton.mp hr2]
      exact hlt
  · exact ((List.perm_append_singleton r s.entities).nodup_iff).mpr
      (List.nodup_cons.mpr ⟨hne, h.nodupE⟩)
  · intro r2 hr2
    rcases List.mem_append.mp hr2 with hr2 | hr2
    · exact h.disjEF r2 hr2
    · rw [List.mem_singleton.mp hr2]
      exact hnf
  · intro q hq r2 hr2 hm
    rcases List.mem_append.mp hr2 with hr2 | hr2
    · exact h.complete q hq r2 hr2 hm
    · rw [List.mem_singleton.mp hr2] at hm
      have hm2 : q.matchE (s.heapGet r) = true := hm
      rw [hmatch q hq] at hm2
      exact Bool.noConfusion hm2

/-- A query with a nonempty required set rejects an entity whose types
have just been cleared by an arena update. -/
theorem matchE_updEnt_nil (s : EMState) (r : Nat) (f : Entity → Entity)
    (hf : ∀ e, (f e).componentTypes = []) (hr : r < s.heap.length)
    (q : Query) (hq : q.components ≠ []) :
    q.matchE ((s.updEnt r f).heapGet r) = false := by
  unfold Query.matchE
  rw [heapGet_updEnt_self s r f hr, hf]
  exact matchTypes_nil q hq

theorem inv_initAndStore (s1 : EMState) (r : Nat) (rest : List Nat)
    (h1 : Inv s1) (hfree : s1.free = r :: rest) :
    Inv (s1.initAndStore r rest) := by
  have hrmem : r ∈ s1.free := by rw [hfree]; exact List.mem_cons_self r rest
  have hrlt : r < s1.heap.length := h1.freeLt r hrmem
  have hrnotE : r ∉ s1.entities := fun hc => (h1.disjEF r hc) hrmem
  have hrnotRest : r ∉ rest := by
    have := h1.nodupF
    rw [hfree] at this
    exact (List.nodup_cons.mp this).1
  have h2 : Inv { s1 with free := rest } := inv_free_tail s1 r rest h1 hfree
  unfold EMState.initAndStore
  refine inv_push_entity _ ?_ r ?_ ?_ ?_ ?_ _
  · exact inv_nextId_update _ _
      (inv_updEnt_outside _ r _ h2 hrnotE (fun e => rfl)
        (fun e _ => List.nodup_nil))
  · show r < (List.set ({ s1 with free := rest } : EMState).heap r _).length
    rw [List.length_set]
    exact hrlt
  · exact hrnotE
  · exact hrnotRest
  · intro q hq
    exact matchE_updEnt_nil { s1 with free := rest } r
      (initEntityFn ({ s1 with free := rest } : EMState).nextId)
      (fun e => rfl) hrlt q (h1.qReq q hq)

theorem inv_createEntity (s : EMState) (h : Inv s) : Inv s.createEntity := by
  have h1 : Inv (if s.free.length ≤ 0 then
      s.expandEntityPool (jsRound02 s.poolCount + 1) else s) := by
    by_cases hc : s.free.length ≤ 0
    · rw [if_pos hc]
      exact inv_expandEntityPool s _ h
    · rw [if_neg hc]
      exact h
  unfold EMState.createEntity
  generalize hS : (if s.free.length ≤ 0 then
    s.expandEntityPool (jsRound02 s.poolCount + 1) else s) = S1 at h1 ⊢
  show Inv (match S1.free with
    | [] => S1
    | r :: rest => S1.initAndStore r rest)
  match hfree : S1.free with
  | [] => exact h1
  | r :: rest => exact inv_initAndStore S1 r rest h1 hfree

/-! ### Facts about the per-query step functions and `match` -/

theorem qmAddedStep_components (r : Nat) (c : CompT) (tys : List CompT)
    (q : Query) :
    (qmAddedStep r c tys q).components = q.components ∧
    (qmAddedStep r c tys q).notComponents = q.notComponents := by
  unfold qmAddedStep
  by_cases g1 : (!(jsIndexOf q.notComponents c == -1) &&
      !(jsIndexOf q.entities r == -1)) = true
  · rw [if_pos g1]
    exact removeEntityQ_components q r
  · rw [if_neg g1]
    by_cases g2 : (jsIndexOf q.components c == -1 || !(q.matchTypes tys) ||
        !(jsIndexOf q.entities r == -1)) = true
    · rw [if_pos g2]
      exact ⟨rfl, rfl⟩
    · rw [if_neg g2]
      exact ⟨rfl, rfl⟩

theorem qmRemovedStep_components (r : Nat) (c : CompT) (tys : List CompT)
    (q : Query) :
    (qmRemovedStep r c tys q).components = q.components ∧
    (qmRemovedStep r c tys q).notComponents = q.notComponents := by
  unfold qmRemovedStep
  by_cases g1 : (!(jsIndexOf q.notComponents c == -1) &&
      (jsIndexOf q.entities r == -1)) = true
  · rw [if_pos g1]
    exact ⟨rfl, rfl⟩
  · rw [if_neg g1]
    by_cases g2 : (jsIndexOf q.components c == -1) = true
    · rw [if_pos g2]
      exact ⟨rfl, rfl⟩
    · rw [if_neg g2]
      by_cases g3 : (!(q.matchTypes tys)) = true
      · rw [if_pos g3]
        exact ⟨rfl, rfl⟩
      · rw [if_neg g3]
        exact removeEntityQ_components q r

theorem qmAddedStep_entities (r : Nat) (c : CompT) (tys : List CompT)
    (q : Query) :
    (qmAddedStep r c tys q).entities = q.entities ∨
    (qmAddedStep r c tys q).entities = q.entities.erase r ∨
    (qmAddedStep r c tys q).entities = q.entities ++ [r] := by
  unfold qmAddedStep
  by_cases g1 : (!(jsIndexOf q.notComponents c == -1) &&
      !(jsIndexOf q.entities r == -1)) = true
  · rw [if_pos g1]
    exact Or.inr (Or.inl (removeEntityQ_entities q r))
  · rw [if_neg g1]
    by_cases g2 : (jsIndexOf q.components c == -1 || !(q.matchTypes tys) ||
        !(jsIndexOf q.entities r == -1)) = true
    · rw [if_pos g2]
      exact Or.inl rfl
    · rw [if_neg g2]
      exact Or.inr (Or.inr rfl)

theorem qmRemovedStep_entities (r : Nat) (c : CompT) (tys : List CompT)
    (q : Query) :
    (qmRemovedStep r c tys q).entities = q.entities ∨
    (qmRemovedStep r c tys q).entities = q.entities.erase r ∨
    (qmRemovedStep r c tys q).entities = q.entities ++ [r] := by
  unfold qmRemovedStep
  by_cases g1 : (!(jsIndexOf q.notComponents c == -1) &&
      (jsIndexOf q.entities r == -1)) = true
  · rw [if_pos g1]
    exact Or.inr (Or.inr rfl)
  · rw [if_neg g1]
    by_cases g2 : (jsIndexOf q.components c == -1) = true
    · rw [if_pos g2]
      exact Or.inl rfl
    · rw [if_neg g2]
      by_cases g3 : (!(q.matchTypes tys)) = true
      · rw [if_pos g3]
        exact Or.inl rfl
      · rw [if_neg g3]
        exact Or.inr (Or.inl (removeEntityQ_entities q r))

/-- Membership of an entity other than the mutated one survives either
step function. -/
theorem step_entities_keep_other {r2 r : Nat} (hne : r2 ≠ r)
    {E E2 : List Nat}
    (hE : E2 = E ∨ E2 = E.erase r ∨ E2 = E ++ [r]) (hm : r2 ∈ E) :
    r2 ∈ E2 := by
  rcases hE with hE | hE | hE
  · rw [hE]; exact hm
  · rw [hE]
    exact (List.mem_erase_of_ne hne).mpr hm
  · rw [hE]
    exact List.mem_append.mpr (Or.inl hm)

theorem matchTypes_false_of_forbidden (q : Query) (tys : List CompT)
    (c : CompT) (hn : c ∈ q.notComponents) (ht : c ∈ tys) :
    q.matchTypes tys = false := by
  by_contra hc
  rw [Bool.not_eq_false] at hc
  exact ((matchTypes_iff q tys).mp hc).2 c hn ht

theorem matchTypes_false_of_required (q : Query) (tys : List CompT)
    (c : CompT) (hn : c ∈ q.components) (ht : c ∉ tys) :
    q.matchTypes tys = false := by
  by_contra hc
  rw [Bool.not_eq_false] at hc
  exact ht (((matchTypes_iff q tys).mp hc).1 c hn)

/-- A match after adding a type not in the required set was already a
match before (when the added type is not forbidden either, which a match
after the add implies). -/
theorem matchTypes_of_append (q : Query) (tys : List CompT) (c : CompT)
    (hc : c ∉ q.components)
    (hm : q.matchTypes (tys ++ [c]) = true) : q.matchTypes tys = true := by
  rcases (matchTypes_iff q _).mp hm with ⟨h1, h2⟩
  refine (matchTypes_iff q tys).mpr ⟨?_, ?_⟩
  · intro x hx
    rcases List.mem_append.mp (h1 x hx) with h | h
    · exact h
    · rw [List.mem_singleton.mp h] at hx
      exact absurd hx hc
  · intro x hx hxt
    exact h2 x hx (List.mem_append.mpr (Or.inl hxt))

/-- A match after erasing a type in neither the required nor the
forbidden set was already a match before. -/
theorem matchTypes_of_erase (q : Query) (tys : List CompT) (c : CompT)
    (hc : c ∉ q.components) (hn : c ∉ q.notComponents)
    (hm : q.matchTypes (tys.erase c) = true) : q.matchTypes tys = true := by
  rcases (matchTypes_iff q _).mp hm with ⟨h1, h2⟩
  refine (matchTypes_iff q tys).mpr ⟨?_, ?_⟩
  · intro x hx
    exact List.erase_subset _ _ (h1 x hx)
  · intro x hx hxt
    have hxc : x ≠ c := fun hcc => hn (hcc ▸ hx)
    exact h2 x hx ((List.mem_erase_of_ne hxc).mpr hxt)

theorem heapGet_updEnt_pend (s : EMState) (r : Nat) (f : Entity → Entity)
    (hf : ∀ e, (f e).componentsToRemove = e.componentsToRemove) (r2 : Nat) :
    ((s.updEnt r f).heapGet r2).componentsToRemove =
      (s.heapGet r2).componentsToRemove := by
  by_cases h2 : r2 = r
  · subst h2
    by_cases hlt : r2 < s.heap.length
    · rw [heapGet_updEnt_self s r2 f hlt]
      exact hf _
    · unfold EMState.updEnt EMState.heapGet
      rw [List.set_eq_of_length_le (by omega)]
  · rw [heapGet_updEnt_ne s r f r2 h2]

/-- `splice(i, 1)` removes at most one element: the result is a sublist. -/
theorem jsSplice1_sublist {α : Type _} (l : List α) (i : Int) :
    List.Sublist (jsSplice1 l i) l := by
  have h : ∀ j : Nat, List.Sublist (l.take j ++ l.drop (j + 1)) l := by
    intro j
    have h1 : List.Sublist (l.drop (j + 1)) (l.drop j) := by
      have ht := List.tail_sublist (l.drop j)
      rw [← List.drop_one, List.drop_drop] at ht
      simpa [Nat.add_comm] using ht
    have h2 := List.Sublist.append_left h1 (l.take j)
    rw [List.take_append_drop] at h2
    exact h2
  exact h _

theorem heapGet_updEnt_tysNodup_at (s : EMState) (r : Nat)
    (f : Entity → Entity)
    (hfr : ((f (s.heapGet r)).componentTypes).Nodup)
    (h : ∀ r3, (s.heapGet r3).componentTypes.Nodup) (r2 : Nat) :
    ((s.updEnt r f).heapGet r2).componentTypes.Nodup := by
  by_cases h2 : r2 = r
  · subst h2
    by_cases hlt : r2 < s.heap.length
    · rw [heapGet_updEnt_self s r2 f hlt]
      exact hfr
    · unfold EMState.updEnt EMState.heapGet
      rw [List.set_eq_of_length_le (by omega)]
      exact h r2
  · rw [heapGet_updEnt_ne s r f r2 h2]
    exact h r2

/-- The query-index update and event dispatch of `entityAddComponent`,
on a not-yet-owned type, preserve the store invariant. -/
theorem inv_addComponent_core (s : EMState) (r : Nat) (c : CompT)
    (h : Inv s) (hnotown : c ∉ (s.heapGet r).componentTypes)
    (s1 s2 : EMState)
    (h1 : s1 = s.updEnt r
      (fun e => { e with componentTypes := e.componentTypes ++ [c] }))
    (h2 : s2 = s1.qmOnEntityComponentAdded r c) :
    Inv { s2 with events := s2.events ++ [EMEvent.componentAdded r c] } := by
  have hlen : s2.heap.length = s.heap.length := by
    rw [h2, qmOnAdded_length, h1, updEnt_length]
  have hE : s2.entities = s.entities := by
    rw [h2, qmOnAdded_entities, h1, updEnt_entities]
  have hF : s2.free = s.free := by
    rw [h2, qmOnAdded_free, h1, updEnt_free]
  have hTR : s2.entitiesToRemove = s.entitiesToRemove := by
    rw [h2, qmOnAdded_toRemove, h1, updEnt_toRemove]
  have hWC : s2.entitiesWithComponentsToRemove =
      s.entitiesWithComponentsToRemove := by
    rw [h2, qmOnAdded_withComps, h1, updEnt_withComps]
  have hcore : ∀ r2, entSameCore (s1.heapGet r2) (s2.heapGet r2) := by
    intro r2
    rw [h2]
    exact qmOnAdded_heapGet_core s1 r c r2
  have hpend : ∀ r2, (s2.heapGet r2).componentsToRemove =
      (s.heapGet r2).componentsToRemove := by
    intro r2
    rw [(hcore r2).2.2.2, h1]
    exact heapGet_updEnt_pend s r
      (fun e => { e with componentTypes := e.componentTypes ++ [c] })
      (fun e => rfl) r2
  have htys2 : ∀ r2, (s2.heapGet r2).componentTypes =
      (s1.heapGet r2).componentTypes :=
    fun r2 => (hcore r2).2.2.1
  have htysne : ∀ r2, r2 ≠ r → (s1.heapGet r2).componentTypes =
      (s.heapGet r2).componentTypes := by
    intro r2 hne
    rw [h1, heapGet_updEnt_ne s r _ r2 hne]
  have happ : ((s.heapGet r).componentTypes ++ [c]).Nodup := by
    rw [List.nodup_append]
    exact ⟨h.tysNodup r, List.nodup_singleton c,
      fun a ha hb => hnotown (List.mem_singleton.mp hb ▸ ha)⟩
  have hnodup : ∀ r2, (s2.heapGet r2).componentTypes.Nodup := by
    intro r2
    rw [htys2 r2, h1]
    refine heapGet_updEnt_tysNodup_at s r _ ?_ h.tysNodup r2
    exact happ
  have hQ : s2.queries =
      s.queries.map (qmAddedStep r c (s1.heapGet r).componentTypes) := by
    rw [h2, qmOnAdded_queries]
    have hq1 : s1.queries = s.queries := by
      rw [h1, updEnt_queries]
    rw [hq1]
  have hTSr : r < s.heap.length → (s1.heapGet r).componentTypes =
      (s.heapGet r).componentTypes ++ [c] := by
    intro hlt
    rw [h1, heapGet_updEnt_self s r _ hlt]
  refine ⟨?_, ?_, ?_, ?_, ?_, ?_, ?_, ?_, ?_, ?_, ?_⟩
  · intro r2 hr2
    have hr2' : r2 ∈ s2.entities := hr2
    rw [hE] at hr2'
    show r2 < s2.heap.length
    rw [hlen]
    exact h.entsLt r2 hr2'
  · show s2.entities.Nodup
    rw [hE]
    exact h.nodupE
  · intro r2 hr2
    have hr2' : r2 ∈ s2.free := hr2
    rw [hF] at hr2'
    show r2 < s2.heap.length
    rw [hlen]
    exact h.freeLt r2 hr2'
  · show s2.free.Nodup
    rw [hF]
    exact h.nodupF
  · intro r2 hr2
    have hr2' : r2 ∈ s2.entities := hr2
    rw [hE] at hr2'
    show r2 ∉ s2.free
    rw [hF]
    exact h.disjEF r2 hr2'
  · show s2.entitiesToRemove = []
    rw [hTR]
    exact h.pendE
  · show s2.entitiesWithComponentsToRemove = []
    rw [hWC]
    exact h.pendC
  · intro r2
    show (s2.heapGet r2).componentsToRemove = []
    rw [hpend r2]
    exact h.pendCE r2
  · intro r2
    show (s2.heapGet r2).componentTypes.Nodup
    exact hnodup r2
  · intro q hq
    have hq' : q ∈ s2.queries := hq
    rw [hQ] at hq'
    rcases List.mem_map.mp hq' with ⟨q0, hq0, hq0e⟩
    rw [← hq0e, (qmAddedStep_components r c _ q0).1]
    exact h.qReq q0 hq0
  · intro q hq r2 hr2 hm
    have hq' : q ∈ s2.queries := hq
    rw [hQ] at hq'
    rcases List.mem_map.mp hq' with ⟨q0, hq0, hq0e⟩
    have hr2' : r2 ∈ s2.entities := hr2
    rw [hE] at hr2'
    have hm2 : q.matchTypes (s2.heapGet r2).componentTypes = true := hm
    rw [htys2 r2] at hm2
    have hcomps := qmAddedStep_components r c (s1.heapGet r).componentTypes q0
    subst hq0e
    rw [matchTypes_congr _ q0 _ hcomps.1 hcomps.2] at hm2
    show r2 ∈ (qmAddedStep r c (s1.heapGet r).componentTypes q0).entities
    by_cases hrr : r2 = r
    · subst hrr
      have hlt : r2 < s.heap.length := h.entsLt r2 hr2'
      rw [hTSr hlt] at hm2 ⊢
      unfold qmAddedStep
      by_cases g1 : (!(jsIndexOf q0.notComponents c == -1) &&
          !(jsIndexOf q0.entities r2 == -1)) = true
      · exfalso
        rw [Bool.and_eq_true] at g1
        have hcn : c ∈ q0.notComponents := by
          have hx := g1.1
          rw [Bool.not_eq_true'] at hx
          exact (jsIndexOf_beq_false_iff _ c).mp hx
        have hfalse := matchTypes_false_of_forbidden q0
          ((s.heapGet r2).componentTypes ++ [c]) c hcn
          (List.mem_append.mpr (Or.inr (List.mem_singleton.mpr rfl)))
        rw [hm2] at hfalse
        exact Bool.noConfusion hfalse
      · rw [if_neg g1]
        by_cases g2 : (jsIndexOf q0.components c == -1 ||
            !(q0.matchTypes ((s.heapGet r2).componentTypes ++ [c])) ||
            !(jsIndexOf q0.entities r2 == -1)) = true
        · rw [if_pos g2]
          rw [Bool.or_eq_true, Bool.or_eq_true] at g2
          rcases g2 with (hc1 | hc2) | hc3
          · have hcnot : c ∉ q0.components :=
              (jsIndexOf_beq_true_iff _ c).mp hc1
            have hmT : q0.matchTypes (s.heapGet r2).componentTypes = true :=
              matchTypes_of_append q0 _ c hcnot hm2
            exact h.complete q0 hq0 r2 hr2' hmT
          · exfalso
            rw [hm2] at hc2
            exact Bool.noConfusion hc2
          · rw [Bool.not_eq_true'] at hc3
            exact (jsIndexOf_beq_false_iff _ r2).mp hc3
        · rw [if_neg g2]
          show r2 ∈ (q0.addEntityQ r2).entities
          unfold Query.addEntityQ
          exact List.mem_append.mpr (Or.inr (List.mem_singleton.mpr rfl))
    · rw [htysne r2 hrr] at hm2
      have hmem0 : r2 ∈ q0.entities := h.complete q0 hq0 r2 hr2' hm2
      exact step_entities_keep_other hrr
        (qmAddedStep_entities r c (s1.heapGet r).componentTypes q0) hmem0

/-- Unfolding `entityRemoveComponent` with `forceRemove = true`. -/
theorem entityRemoveComponent_true_eq (s : EMState) (r : Nat) (c : CompT) :
    s.entityRemoveComponent r c true =
      (if (jsIndexOf (s.heapGet r).componentTypes c == -1) = true then s
       else (EMState.qmOnEntityComponentRemoved
           { s with events := s.events ++ [EMEvent.componentRemove r c] }
           r c).entityRemoveComponentSync r
             (jsIndexOf (s.heapGet r).componentTypes c)) := rfl

/-- The query-index update, event dispatch and synchronous splice of a
forced `entityRemoveComponent`, on an owned type, preserve the store
invariant. -/
theorem inv_removeComponentF_core (s : EMState) (r : Nat) (c : CompT)
    (h : Inv s) (hown : c ∈ (s.heapGet r).componentTypes)
    (s1 s2 : EMState)
    (h1 : s1 = { s with events := s.events ++ [EMEvent.componentRemove r c] })
    (h2 : s2 = s1.qmOnEntityComponentRemoved r c) :
    Inv (s2.entityRemoveComponentSync r
      (jsIndexOf (s.heapGet r).componentTypes c)) := by
  have hG1 : ∀ r2, s1.heapGet r2 = s.heapGet r2 := by
    intro r2
    rw [h1]
    rfl
  have hQ1 : s1.queries = s.queries := by
    rw [h1]
  have hlen2 : s2.heap.length = s.heap.length := by
    rw [h2, qmOnRemoved_length, h1]
  have hE2 : s2.entities = s.entities := by
    rw [h2, qmOnRemoved_entities, h1]
  have hF2 : s2.free = s.free := by
    rw [h2, qmOnRemoved_free, h1]
  have hTR2 : s2.entitiesToRemove = s.entitiesToRemove := by
    rw [h2, qmOnRemoved_toRemove, h1]
  have hWC2 : s2.entitiesWithComponentsToRemove =
      s.entitiesWithComponentsToRemove := by
    rw [h2, qmOnRemoved_withComps, h1]
  have hcore : ∀ r2, entSameCore (s1.heapGet r2) (s2.heapGet r2) := by
    intro r2
    rw [h2]
    exact qmOnRemoved_heapGet_core s1 r c r2
  have htys2 : ∀ r2, (s2.heapGet r2).componentTypes =
      (s.heapGet r2).componentTypes := by
    intro r2
    rw [(hcore r2).2.2.1, hG1 r2]
  have hpend2 : ∀ r2, (s2.heapGet r2).componentsToRemove =
      (s.heapGet r2).componentsToRemove := by
    intro r2
    rw [(hcore r2).2.2.2, hG1 r2]
  have hQ : s2.queries =
      s.queries.map (qmRemovedStep r c (s.heapGet r).componentTypes) := by
    rw [h2, qmOnRemoved_queries, hQ1, hG1 r]
  rcases firstIdx_isSome_of_mem hown with ⟨n, hn⟩
  have hsplice : jsSplice1 (s.heapGet r).componentTypes
      (jsIndexOf (s.heapGet r).componentTypes c) =
      (s.heapGet r).componentTypes.erase c :=
    jsSplice1_jsIndexOf _ c n hn
  show Inv (s2.updEnt r (fun e =>
    { e with componentTypes :=
        jsSplice1 e.componentTypes (jsIndexOf (s.heapGet r).componentTypes c) }))
  refine ⟨?_, ?_, ?_, ?_, ?_, ?_, ?_, ?_, ?_, ?_, ?_⟩
  · intro r2 hr2
    have hr2' : r2 ∈ s2.entities := hr2
    rw [hE2] at hr2'
    show r2 < (s2.updEnt r _).heap.length
    rw [updEnt_length, hlen2]
    exact h.entsLt r2 hr2'
  · show s2.entities.Nodup
    rw [hE2]
    exact h.nodupE
  · intro r2 hr2
    have hr2' : r2 ∈ s2.free := hr2
    rw [hF2] at hr2'
    show r2 < (s2.updEnt r _).heap.length
    rw [updEnt_length, hlen2]
    exact h.freeLt r2 hr2'
  · show s2.free.Nodup
    rw [hF2]
    exact h.nodupF
  · intro r2 hr2
    have hr2' : r2 ∈ s2.entities := hr2
    rw [hE2] at hr2'
    show r2 ∉ s2.free
    rw [hF2]
    exact h.disjEF r2 hr2'
  · show s2.entitiesToRemove = []
    rw [hTR2]
    exact h.pendE
  · show s2.entitiesWithComponentsToRemove = []
    rw [hWC2]
    exact h.pendC
  · intro r2
    show ((s2.updEnt r _).heapGet r2).componentsToRemove = []
    have hsp := heapGet_updEnt_pend s2 r
      (fun e => { e with componentTypes := jsSplice1 e.componentTypes (jsIndexOf (s.heapGet r).componentTypes c) })
      (fun e => rfl) r2
    rw [hsp, hpend2 r2]
    exact h.pendCE r2
  · intro r2
    refine heapGet_updEnt_tysNodup_at s2 r _ ?_
      (fun r3 => by rw [htys2 r3]; exact h.tysNodup r3) r2
    show (jsSplice1 (s2.heapGet r).componentTypes
      (jsIndexOf (s.heapGet r).componentTypes c)).Nodup
    exact List.Nodup.sublist (jsSplice1_sublist _ _)
      (by rw [htys2 r]; exact h.tysNodup r)
  · intro q hq
    have hq' : q ∈ s2.queries := hq
    rw [hQ] at hq'
    rcases List.mem_map.mp hq' with ⟨q0, hq0, hq0e⟩
    rw [← hq0e, (qmRemovedStep_components r c _ q0).1]
    exact h.qReq q0 hq0
  · intro q hq r2 hr2 hm
    have hq' : q ∈ s2.queries := hq
    rw [hQ] at hq'
    rcases List.mem_map.mp hq' with ⟨q0, hq0, hq0e⟩
    have hr2' : r2 ∈ s2.entities := hr2
    rw [hE2] at hr2'
    have hcomps := qmRemovedStep_components r c (s.heapGet r).componentTypes q0
    have hm2 : q.matchTypes
        (((s2.updEnt r
          (fun e => { e with componentTypes := jsSplice1 e.componentTypes (jsIndexOf (s.heapGet r).componentTypes c) })
         ).heapGet r2).componentTypes) = true := hm
    subst hq0e
    rw [matchTypes_congr _ q0 _ hcomps.1 hcomps.2] at hm2
    show r2 ∈ (qmRemovedStep r c (s.heapGet r).componentTypes q0).entities
    by_cases hrr : r2 = r
    · subst hrr
      have hlt : r2 < s.heap.length := h.entsLt r2 hr2'
      rw [heapGet_updEnt_self s2 r2 _ (by rw [hlen2]; exact hlt)] at hm2
      have hm3 : q0.matchTypes
          (jsSplice1 (s2.heapGet r2).componentTypes
            (jsIndexOf (s.heapGet r2).componentTypes c)) = true := hm2
      rw [htys2 r2, hsplice] at hm3
      unfold qmRemovedStep
      by_cases g1 : (!(jsIndexOf q0.notComponents c == -1) &&
          (jsIndexOf q0.entities r2 == -1)) = true
      · rw [if_pos g1]
        show r2 ∈ (q0.addEntityQ r2).entities
        unfold Query.addEntityQ
        exact List.mem_append.mpr (Or.inr (List.mem_singleton.mpr rfl))
      · rw [if_neg g1]
        by_cases g2 : (jsIndexOf q0.components c == -1) = true
        · rw [if_pos g2]
          have hcnot : c ∉ q0.components := (jsIndexOf_beq_true_iff _ c).mp g2
          by_cases hcn : c ∈ q0.notComponents
          · by_cases hB : (jsIndexOf q0.entities r2 == -1) = true
            · exfalso
              apply g1
              rw [Bool.and_eq_true]
              refine ⟨?_, hB⟩
              rw [Bool.not_eq_true', jsIndexOf_beq_false_iff]
              exact hcn
            · have hB' : (jsIndexOf q0.entities r2 == -1) = false := by
                cases hx : (jsIndexOf q0.entities r2 == -1) with
                | false => rfl
                | true => exact absurd hx hB
              exact (jsIndexOf_beq_false_iff _ r2).mp hB'
          · have hmT : q0.matchTypes (s.heapGet r2).componentTypes = true :=
              matchTypes_of_erase q0 _ c hcnot hcn hm3
            exact h.complete q0 hq0 r2 hr2' hmT
        · exfalso
          have hg2' : (jsIndexOf q0.components c == -1) = false := by
            cases hx : (jsIndexOf q0.components c == -1) with
            | false => rfl
            | true => exact absurd hx g2
          have hcin : c ∈ q0.components := (jsIndexOf_beq_false_iff _ c).mp hg2'
          have hnm : c ∉ (s.heapGet r2).componentTypes.erase c :=
            List.Nodup.not_mem_erase (h.tysNodup r2)
          have hfalse := matchTypes_false_of_required q0
            ((s.heapGet r2).componentTypes.erase c) c hcin hnm
          rw [hm3] at hfalse
          exact Bool.noConfusion hfalse
    · rw [heapGet_updEnt_ne s2 r _ r2 hrr, htys2 r2] at hm2
      have hmem0 : r2 ∈ q0.entities := h.complete q0 hq0 r2 hr2' hm2
      exact step_entities_keep_other hrr
        (qmRemovedStep_entities r c (s.heapGet r).componentTypes q0) hmem0

/-- Forced `entityRemoveComponent` preserves the store invariant. -/
theorem inv_entityRemoveComponentF (s : EMState) (r : Nat) (c : CompT)
    (h : Inv s) : Inv (s.entityRemoveComponent r c true) := by
  rw [entityRemoveComponent_true_eq]
  by_cases hg : (jsIndexOf (s.heapGet r).componentTypes c == -1) = true
  · rw [if_pos hg]
    exact h
  · rw [if_neg hg]
    have hg' : (jsIndexOf (s.heapGet r).componentTypes c == -1) = false := by
      cases hx : (jsIndexOf (s.heapGet r).componentTypes c == -1) with
      | false => rfl
      | true => exact absurd hx hg
    have hown : c ∈ (s.heapGet r).componentTypes :=
      (jsIndexOf_beq_false_iff _ c).mp hg'
    exact inv_removeComponentF_core s r c h hown
      { s with events := s.events ++ [EMEvent.componentRemove r c] }
      (EMState.qmOnEntityComponentRemoved
        { s with events := s.events ++ [EMEvent.componentRemove r c] } r c)
      rfl rfl

theorem forall2_mem_right {α β : Type _} {R : α → β → Prop} :
    ∀ {l1 : List α} {l2 : List β}, List.Forall₂ R l1 l2 →
      ∀ b ∈ l2, ∃ a ∈ l1, R a b := by
  intro l1 l2 hf
  induction hf with
  | nil =>
    intro b hb
    exact absurd hb (List.not_mem_nil b)
  | cons hR hrest ih =>
    intro b hb
    rcases List.mem_cons.mp hb with hb | hb
    · exact ⟨_, List.mem_cons_self _ _, by rw [hb]; exact hR⟩
    · rcases ih b hb with ⟨a, ha, hab⟩
      exact ⟨a, List.mem_cons_of_mem _ ha, hab⟩

theorem removeComponentSync_entities (s : EMState) (r : Nat) (i : Int) :
    (s.entityRemoveComponentSync r i).entities = s.entities := rfl

theorem removeComponentSync_free (s : EMState) (r : Nat) (i : Int) :
    (s.entityRemoveComponentSync r i).free = s.free := rfl

theorem removeComponentSync_length (s : EMState) (r : Nat) (i : Int) :
    (s.entityRemoveComponentSync r i).heap.length = s.heap.length := by
  unfold EMState.entityRemoveComponentSync
  rw [updEnt_length]

/-- Forced `entityRemoveComponent` never touches the store's entity list,
free list or arena size. -/
theorem removeComponentF_fields (s : EMState) (r : Nat) (c : CompT) :
    (s.entityRemoveComponent r c true).entities = s.entities ∧
    (s.entityRemoveComponent r c true).free = s.free ∧
    (s.entityRemoveComponent r c true).heap.length = s.heap.length := by
  rw [entityRemoveComponent_true_eq]
  by_cases hg : (jsIndexOf (s.heapGet r).componentTypes c == -1) = true
  · rw [if_pos hg]
    exact ⟨rfl, rfl, rfl⟩
  · rw [if_neg hg]
    refine ⟨?_, ?_, ?_⟩
    · rw [removeComponentSync_entities, qmOnRemoved_entities]
    · rw [removeComponentSync_free, qmOnRemoved_free]
    · rw [removeComponentSync_length, qmOnRemoved_length]

/-- Pushing a slot on the free list preserves the invariant when the slot
is valid, not already free, and not in the entity list. -/
theorem inv_push_free (t : EMState) (r : Nat) (h : Inv t)
    (hlt : r < t.heap.length) (hnf : r ∉ t.free) (hne : r ∉ t.entities) :
    Inv { t with free := r :: t.free } := by
  refine ⟨h.entsLt, h.nodupE, ?_, ?_, ?_, h.pendE, h.pendC, h.pendCE,
    h.tysNodup, h.qReq, h.complete⟩
  · intro r2 hr2
    rcases List.mem_cons.mp hr2 with hr2 | hr2
    · rw [hr2]
      exact hlt
    · exact h.freeLt r2 hr2
  · exact List.nodup_cons.mpr ⟨hnf, h.nodupF⟩
  · intro r2 hr2 hc
    rcases List.mem_cons.mp hc with hc | hc
    · exact hne (hc ▸ hr2)
    · exact h.disjEF r2 hr2 hc

/-- Unfolding `removeEntity` with `forceRemove = true`. -/
theorem removeEntity_true_eq (s : EMState) (r : Nat) :
    s.removeEntity r true =
      (if (jsIndexOf s.entities r == -1) = true then s
       else (EMState.qmOnEntityRemoved
           { s with events := s.events ++ [EMEvent.entityRemoved r] }
           r).removeEntitySync r (jsIndexOf s.entities r)) := rfl

/-- The query-index cleanup, the entity-list splice, the per-component
teardown and the release to the pool of a forced `removeEntity`, on an
entity in the store, preserve the store invariant. -/
theorem inv_removeEntityF_core (s : EMState) (r : Nat)
    (h : Inv s) (hmem : r ∈ s.entities)
    (s1 s2 : EMState)
    (h1 : s1 = { s with events := s.events ++ [EMEvent.entityRemoved r] })
    (h2 : s2 = s1.qmOnEntityRemoved r) :
    Inv (s2.removeEntitySync r (jsIndexOf s.entities r)) := by
  have hrlt : r < s.heap.length := h.entsLt r hmem
  have hG1 : ∀ r2, s1.heapGet r2 = s.heapGet r2 := by
    intro r2
    rw [h1]
    rfl
  have hQ1 : s1.queries = s.queries := by
    rw [h1]
  have hlen2 : s2.heap.length = s.heap.length := by
    rw [h2, qmOnEntityRemoved_length, h1]
  have hE2 : s2.entities = s.entities := by
    rw [h2, qmOnEntityRemoved_entities, h1]
  have hF2 : s2.free = s.free := by
    rw [h2, qmOnEntityRemoved_free, h1]
  have hTR2 : s2.entitiesToRemove = s.entitiesToRemove := by
    rw [h2, qmOnEntityRemoved_toRemove, h1]
  have hWC2 : s2.entitiesWithComponentsToRemove =
      s.entitiesWithComponentsToRemove := by
    rw [h2, qmOnEntityRemoved_withComps, h1]
  have hcore2 : ∀ r2, entSameCore (s1.heapGet r2) (s2.heapGet r2) := by
    intro r2
    rw [h2]
    exact qmOnEntityRemoved_heapGet_core s1 r r2
  have htys2 : ∀ r2, (s2.heapGet r2).componentTypes =
      (s.heapGet r2).componentTypes := by
    intro r2
    rw [(hcore2 r2).2.2.1, hG1 r2]
  have hpend2 : ∀ r2, (s2.heapGet r2).componentsToRemove =
      (s.heapGet r2).componentsToRemove := by
    intro r2
    rw [(hcore2 r2).2.2.2, hG1 r2]
  have hQmem : ∀ q2 ∈ s2.queries, ∃ q ∈ s.queries,
      q2 = q ∨ q2 = q.removeEntityQ r := by
    intro q2 hq2
    have hf2 := qmOnEntityRemoved_queries s1 r
    rw [← h2, hQ1] at hf2
    exact forall2_mem_right hf2 q2 hq2
  rcases firstIdx_isSome_of_mem hmem with ⟨n, hn⟩
  have hsplice : jsSplice1 s.entities (jsIndexOf s.entities r) =
      s.entities.erase r := jsSplice1_jsIndexOf _ r n hn
  obtain ⟨sA, hAeq⟩ : ∃ t, t =
      { s2 with entities := jsSplice1 s2.entities (jsIndexOf s.entities r) } :=
    ⟨_, rfl⟩
  obtain ⟨sB, hBeq⟩ : ∃ t, t = sA.entityRemoveAllComponents r true := ⟨_, rfl⟩
  obtain ⟨sC, hCeq⟩ : ∃ t, t =
      sB.updEnt r (fun e => { e with worldAttached := false }) := ⟨_, rfl⟩
  have hfin : s2.removeEntitySync r (jsIndexOf s.entities r) =
      { sC with free := r :: sC.free } := by
    rw [hCeq, hBeq, hAeq]
    rfl
  have hAent : sA.entities = s.entities.erase r := by
    rw [hAeq]
    show jsSplice1 s2.entities (jsIndexOf s.entities r) = s.entities.erase r
    rw [hE2]
    exact hsplice
  have hAfree : sA.free = s.free := by
    rw [hAeq]
    show s2.free = s.free
    exact hF2
  have hAlen : sA.heap.length = s.heap.length := by
    rw [hAeq]
    show s2.heap.length = s.heap.length
    exact hlen2
  have hAget : ∀ r2, sA.heapGet r2 = s2.heapGet r2 := by
    intro r2
    rw [hAeq]
    rfl
  have hAq : sA.queries = s2.queries := by
    rw [hAeq]
  have hInvA : Inv sA := by
    refine ⟨?_, ?_, ?_, ?_, ?_, ?_, ?_, ?_, ?_, ?_, ?_⟩
    · intro r2 hr2
      rw [hAent] at hr2
      rw [hAlen]
      exact h.entsLt r2 (List.mem_of_mem_erase hr2)
    · rw [hAent]
      exact h.nodupE.erase r
    · intro r2 hr2
      rw [hAfree] at hr2
      rw [hAlen]
      exact h.freeLt r2 hr2
    · rw [hAfree]
      exact h.nodupF
    · intro r2 hr2
      rw [hAent] at hr2
      rw [hAfree]
      exact h.disjEF r2 (List.mem_of_mem_erase hr2)
    · rw [hAeq]
      show s2.entitiesToRemove = []
      rw [hTR2]
      exact h.pendE
    · rw [hAeq]
      show s2.entitiesWithComponentsToRemove = []
      rw [hWC2]
      exact h.pendC
    · intro r2
      rw [hAget r2, hpend2 r2]
      exact h.pendCE r2
    · intro r2
      rw [hAget r2, htys2 r2]
      exact h.tysNodup r2
    · intro q2 hq2
      rw [hAq] at hq2
      rcases hQmem q2 hq2 with ⟨q, hqm, hor⟩
      rcases hor with he | he
      · rw [he]
        exact h.qReq q hqm
      · rw [he, (removeEntityQ_components q r).1]
        exact h.qReq q hqm
    · intro q2 hq2 r2 hr2 hm
      rw [hAq] at hq2
      rw [hAent] at hr2
      have hr2e := (List.Nodup.mem_erase_iff h.nodupE).mp hr2
      have hm2 : q2.matchTypes (sA.heapGet r2).componentTypes = true := hm
      rw [hAget r2, htys2 r2] at hm2
      rcases hQmem q2 hq2 with ⟨q, hqm, hor⟩
      have hmq : q.matchTypes (s.heapGet r2).componentTypes = true := by
        rcases hor with he | he
        · rw [he] at hm2
          exact hm2
        · rw [he, matchTypes_congr _ q _ (removeEntityQ_components q r).1
            (removeEntityQ_components q r).2] at hm2
          exact hm2
      have hmemq : r2 ∈ q.entities := h.complete q hqm r2 hr2e.2 hmq
      rcases hor with he | he
      · rw [he]
        exact hmemq
      · rw [he, removeEntityQ_entities]
        exact (List.mem_erase_of_ne hr2e.1).mpr hmemq
  have hB0 : Inv sB ∧ sB.entities = s.entities.erase r ∧ sB.free = s.free ∧
      sB.heap.length = s.heap.length := by
    rw [hBeq]
    exact foldl_preserve
      (fun t => Inv t ∧ t.entities = s.entities.erase r ∧ t.free = s.free ∧
        t.heap.length = s.heap.length)
      (fun t c => t.entityRemoveComponent r c true)
      (fun t c ht => ⟨inv_entityRemoveComponentF t r c ht.1,
        by rw [(removeComponentF_fields t r c).1]; exact ht.2.1,
        by rw [(removeComponentF_fields t r c).2.1]; exact ht.2.2.1,
        by rw [(removeComponentF_fields t r c).2.2]; exact ht.2.2.2⟩)
      ((sA.heapGet r).componentTypes.reverse) sA
      ⟨hInvA, hAent, hAfree, hAlen⟩
  have hrBne : r ∉ sB.entities := by
    rw [hB0.2.1]
    intro hc
    exact ((List.Nodup.mem_erase_iff h.nodupE).mp hc).1 rfl
  have hInvC : Inv sC := by
    rw [hCeq]
    exact inv_updEnt_outside sB r _ hB0.1 hrBne (fun e => rfl) (fun e he => he)
  have hCent : sC.entities = s.entities.erase r := by
    rw [hCeq, updEnt_entities]
    exact hB0.2.1
  have hCfree : sC.free = s.free := by
    rw [hCeq, updEnt_free]
    exact hB0.2.2.1
  have hClen : sC.heap.length = s.heap.length := by
    rw [hCeq, updEnt_length]
    exact hB0.2.2.2
  rw [hfin]
  refine inv_push_free sC r hInvC ?_ ?_ ?_
  · rw [hClen]
    exact hrlt
  · rw [hCfree]
    exact h.disjEF r hmem
  · rw [hCent]
    intro hc
    exact ((List.Nodup.mem_erase_iff h.nodupE).mp hc).1 rfl

/-- Forced `removeEntity` preserves the store invariant. -/
theorem inv_removeEntityF (s : EMState) (r : Nat) (h : Inv s) :
    Inv (s.removeEntity r true) := by
  rw [removeEntity_true_eq]
  by_cases hg : (jsIndexOf s.entities r == -1) = true
  · rw [if_pos hg]
    exact h
  · rw [if_neg hg]
    have hg' : (jsIndexOf s.entities r == -1) = false := by
      cases hx : (jsIndexOf s.entities r == -1) with
      | false => rfl
      | true => exact absurd hx hg
    have hmem : r ∈ s.entities := (jsIndexOf_beq_false_iff _ r).mp hg'
    exact inv_removeEntityF_core s r h hmem
      { s with events := s.events ++ [EMEvent.entityRemoved r] }
      (EMState.qmOnEntityRemoved
        { s with events := s.events ++ [EMEvent.entityRemoved r] } r)
      rfl rfl

/-- `entityAddComponent` preserves the store invariant. -/
theorem inv_entityAddComponent (s : EMState) (r : Nat) (c : CompT)
    (h : Inv s) : Inv (s.entityAddComponent r c) := by
  unfold EMState.entityAddComponent
  by_cases hg : (!(jsIndexOf (s.heapGet r).componentTypes c == -1)) = true
  · rw [if_pos hg]
    exact h
  · rw [if_neg hg]
    have hg' : (jsIndexOf (s.heapGet r).componentTypes c == -1) = true := by
      cases hx : (jsIndexOf (s.heapGet r).componentTypes c == -1) with
      | false => exact absurd (by rw [hx]; rfl) hg
      | true => rfl
    have hnotown : c ∉ (s.heapGet r).componentTypes :=
      (jsIndexOf_beq_true_iff _ c).mp hg'
    exact inv_addComponent_core s r c h hnotown
      (s.updEnt r (fun e => { e with componentTypes := e.componentTypes ++ [c] }))
      ((s.updEnt r (fun e =>
        { e with componentTypes := e.componentTypes ++ [c] })
        ).qmOnEntityComponentAdded r c)
      rfl rfl

/-- One forced user-level operation preserves the store invariant. -/
theorem inv_applyOp (s : EMState) (op : Op) (h : Inv s)
    (hf : ForcedOp op = true) : Inv (s.applyOp op) := by
  cases op with
  | createEntity => exact inv_createEntity s h
  | addComponent r c =>
    simp only [EMState.applyOp]
    by_cases hA : ((s.heapGet r).worldAttached) = true
    · rw [if_pos hA]
      exact inv_entityAddComponent s r c h
    · rw [if_neg hA]
      exact h
  | removeComponent r c f =>
    have hft : f = true := hf
    subst hft
    simp only [EMState.applyOp]
    by_cases hA : ((s.heapGet r).worldAttached) = true
    · rw [if_pos hA]
      exact inv_entityRemoveComponentF s r c h
    · rw [if_neg hA]
      exact h
  | removeEntity r f =>
    have hft : f = true := hf
    subst hft
    simp only [EMState.applyOp]
    by_cases hA : ((s.heapGet r).worldAttached) = true
    · rw [if_pos hA]
      exact inv_removeEntityF s r h
    · rw [if_neg hA]
      exact h
  | createQuery ts => exact inv_getQuery s ts h
  | processDeferred => exact inv_processDeferred s h

/-- A sequence of forced user-level operations preserves the store
invariant. -/
theorem inv_applyOps (s : EMState) (ops : List Op) (h : Inv s)
    (hf : ∀ op ∈ ops, ForcedOp op = true) : Inv (s.applyOps ops) := by
  induction ops generalizing s with
  | nil => exact h
  | cons op rest ih =>
    show Inv ((s.applyOp op).applyOps rest)
    exact ih (s.applyOp op)
      (inv_applyOp s op h (hf op (List.mem_cons_self op rest)))
      (fun op2 h2 => hf op2 (List.mem_cons_of_mem op h2))

/-- C1 (amended): after any sequence of `createEntity`, `addComponent`,
**forced** `removeComponent`, **forced** `removeEntity`, `getQuery` and
`processDeferredRemoval` operations, query membership is *complete*:
every entity in the store whose component-type list contains all of a
query's required types and none of its forbidden types is in that query's
entity list.  (The converse inclusion — and the claim's full "iff" over
deferred removals — fails in the code; see the counterexample theorem.) -/
theorem query_membership_completeness (ops : List Op)
    (hf : ∀ op ∈ ops, ForcedOp op = true) :
    ∀ q ∈ (EMState.start.applyOps ops).queries,
      ∀ r ∈ (EMState.start.applyOps ops).entities,
        q.matchE ((EMState.start.applyOps ops).heapGet r) = true →
          r ∈ q.entities :=
  (inv_applyOps EMState.start ops inv_start hf).complete

/-- A concrete run for the completeness theorem: one query on type `0`,
one entity, the component added — the entity must appear in the query. -/
def c1WitnessOps : List Op :=
  [Op.createQuery [QTerm.plain 0], Op.createEntity, Op.addComponent 1 0]

theorem query_membership_completeness_witness :
    (∀ op ∈ c1WitnessOps, ForcedOp op = true) ∧
    1 ∈ ((EMState.start.applyOps c1WitnessOps).queries.headD default).entities :=
  ⟨by decide,
   query_membership_completeness c1WitnessOps (by decide)
     ((EMState.start.applyOps c1WitnessOps).queries.headD default)
     (by decide) 1 (by decide) (by decide)⟩

end Ecsy
